import Mathlib

/-!
Verification of the `mload` load/convert pipeline of the maana-io/q-cli
repository (file `src/mload.js`, final revision).

The development shallowly embeds the pipeline's data model and operations:

* `JValue` models the dynamic JavaScript values flowing through the pipeline
  (strings, numbers, booleans, `null`, and arrays).  Numbers are modelled as
  exact rationals; the claims never depend on floating-point rounding.
* `coerce` embeds the type-directed value coercion (`coerce` in mload.js).
* `GType`/`Schema`/`getField` embed the GraphQL schema reflection used by the
  pipeline (`typeIsList`, `getField`).
* `mkNdfId` embeds the identifier normalizer; the external `md5-base64` npm
  dependency is modelled as a deterministic 16-byte content digest followed by
  base64 encoding (its interface contract).
* `classifyEntity`/`convertRun` embed the NDF converter (`convertToNdf`).
* `buildMutation`/`uploadRun` embed the mutation builder and batch uploader
  (`buildMutation`, `uploadViaMutation`).

External npm libraries (`moment`, `md5-base64`, the missing `util.parseTime`)
are modelled at their interface on the formats the pipeline uses; each such
model carries a doc comment saying so.
-/

/-! ## JavaScript value model -/

/-- Dynamic JavaScript value as it appears in a parsed CSV/JSON record:
`null`, boolean, number (modelled as an exact rational), string, or array.
Nested objects are outside the modelled domain; no claim depends on them. -/
inductive JValue where
  | null : JValue
  | bool : Bool → JValue
  | num : Rat → JValue
  | str : String → JValue
  | arr : List JValue → JValue

/-- The JS test `v == null` (also true of `undefined`, which the modelled
records never contain as a present field's value). -/
def jsIsNull : JValue → Bool
  | .null => true
  | _ => false

/-- An input record: a field-name/value association list (a JS object).
JavaScript object keys are unique; theorems that need this assume `Nodup`. -/
abbrev Record := List (String × JValue)

/-- Field lookup on a record, `row[fieldName]` (first binding wins). -/
def jsGet (row : Record) (f : String) : Option JValue :=
  match row.find? (fun kv => kv.1 == f) with
  | some kv => some kv.2
  | none => none

/-- JavaScript truthiness test on a value: `null`, `false`, `0` and `""` are
falsy; arrays (even empty ones) are truthy. -/
def jsFalsy : JValue → Bool
  | .null => true
  | .bool b => !b
  | .num q => q == 0
  | .str s => s == ""
  | .arr _ => false

/-- Truthiness of an optional value; a missing field (`undefined`) is falsy. -/
def jsFalsyOpt : Option JValue → Bool
  | none => true
  | some v => jsFalsy v

/-- The JS `.length` property: defined for strings and arrays only. -/
def jsLength : JValue → Option Nat
  | .str s => some s.length
  | .arr xs => some xs.length
  | _ => none

mutual
/-- JavaScript implicit string conversion `String(v)`, as used for object
keys and template-literal interpolation of primitives.  Numeric rendering is
modelled as the exact integer/rational representation; no claim inspects the
rendering of a non-integral number. -/
def jsToStr : JValue → String
  | .null => "null"
  | .bool b => if b then "true" else "false"
  | .num q => if q.den = 1 then toString q.num else toString q.num ++ "/" ++ toString q.den
  | .str s => s
  | .arr xs => jsToStrList xs

/-- Array-to-string conversion (`Array.prototype.toString`): elements joined
with commas. -/
def jsToStrList : List JValue → String
  | [] => ""
  | [x] => jsToStr x
  | x :: y :: rest => jsToStr x ++ "," ++ jsToStrList (y :: rest)
end

/-- ASCII lower-casing of one character (JS `toLowerCase` on the inputs the
pipeline compares, which are ASCII keywords). -/
def lcChar (c : Char) : Char :=
  if 'A' ≤ c ∧ c ≤ 'Z' then Char.ofNat (c.toNat + 32) else c

/-- Model of JS `String.prototype.toLowerCase` (ASCII range). -/
def jsToLower (s : String) : String := String.mk (s.data.map lcChar)

/-- Minimal JSON string escaping (backslash and double quote), enough for the
values the claims exercise. -/
def jsonEscape (s : String) : String :=
  s.data.foldr
    (fun c acc =>
      if c = '\\' then "\\\\" ++ acc
      else if c = '"' then "\\\"" ++ acc
      else String.singleton c ++ acc) ""

mutual
/-- Model of `JSON.stringify` on the modelled value universe. -/
def jsonStringify : JValue → String
  | .null => "null"
  | .bool b => if b then "true" else "false"
  | .num q => if q.den = 1 then toString q.num else toString q.num ++ "/" ++ toString q.den
  | .str s => "\"" ++ jsonEscape s ++ "\""
  | .arr xs => "[" ++ jsonStringifyList xs ++ "]"

/-- JSON rendering of an array body: elements joined with commas. -/
def jsonStringifyList : List JValue → String
  | [] => ""
  | [x] => jsonStringify x
  | x :: y :: rest => jsonStringify x ++ "," ++ jsonStringifyList (y :: rest)
end

/-! ## Number parsing (JS `Number(string)`) -/

/-- Numeric value of a decimal digit character, if it is one (code points 48
through 57). -/
def digVal (c : Char) : Option Nat :=
  if 48 ≤ c.toNat ∧ c.toNat ≤ 57 then some (c.toNat - 48) else none

/-- Reads a run of decimal digits; returns the accumulated value, the number of
digits consumed, and the remaining characters. -/
def readDigits : List Char → Nat → Nat → Nat × Nat × List Char
  | [], acc, cnt => (acc, cnt, [])
  | c :: rest, acc, cnt =>
    match digVal c with
    | some d => readDigits rest (acc * 10 + d) (cnt + 1)
    | none => (acc, cnt, c :: rest)

/-- Model of JavaScript `Number(string)` restricted to decimal literals
(optional sign, integer part, fraction, exponent); whitespace is trimmed and
the empty string converts to `0`, as in JS.  Hexadecimal and `Infinity`
literals are outside the modelled domain.  `none` models `NaN`. -/
def jsParseNumber (s : String) : Option Rat :=
  let isWs := fun c => c = ' ' ∨ c = '\t' ∨ c = '\n' ∨ c = '\r'
  let cs := (s.data.dropWhile (fun c => decide (isWs c))).reverse
    |>.dropWhile (fun c => decide (isWs c)) |>.reverse
  match cs with
  | [] => some 0
  | _ =>
    let (sign, cs1) :=
      match cs with
      | '-' :: rest => ((-1 : Int), rest)
      | '+' :: rest => ((1 : Int), rest)
      | rest => ((1 : Int), rest)
    let (ip, ipCnt, cs2) := readDigits cs1 0 0
    let (fp, fpCnt, cs3) :=
      match cs2 with
      | '.' :: rest => readDigits rest 0 0
      | rest => (0, 0, rest)
    -- at least one digit must appear on either side of the dot;
    -- any trailing garbage is rejected by the final match below
    if ipCnt = 0 ∧ fpCnt = 0 then none
    else
      let mantissa : Rat := (sign * (ip : Int) : Int) +
        (sign : Rat) * ((fp : Rat) / ((10 : Rat) ^ fpCnt))
      match cs3 with
      | [] => some mantissa
      | 'e' :: rest => jsParseExp mantissa rest
      | 'E' :: rest => jsParseExp mantissa rest
      | _ => none
where
  /-- Parses the exponent part after `e`/`E`. -/
  jsParseExp (mantissa : Rat) (cs : List Char) : Option Rat :=
    let (esign, cs1) :=
      match cs with
      | '-' :: rest => (true, rest)
      | '+' :: rest => (false, rest)
      | rest => (false, rest)
    let (ev, eCnt, cs2) := readDigits cs1 0 0
    if eCnt = 0 ∨ cs2 ≠ [] then none
    else if esign then some (mantissa / ((10 : Rat) ^ ev))
    else some (mantissa * ((10 : Rat) ^ ev))

/-! ## Date and time model

The pipeline parses dates with the external `moment` library and formats them
with `toISOString` / `format("YYYY-MM-DD")`.  The model covers the two string
formats the pipeline itself produces and the plain-date input format of the
test fixtures; `moment`'s many lenient formats, numeric-epoch input, and local
timezones are outside the modelled domain (the model behaves as if the process
runs in UTC, which is what the spec's scenario output assumes). -/

/-- A parsed calendar date-time (UTC). -/
structure DateTime where
  year : Nat
  month : Nat
  day : Nat
  hour : Nat
  minute : Nat
  second : Nat
  millis : Nat
deriving DecidableEq

/-- Decimal digit character for `n % 10`. -/
def digChar (n : Nat) : Char :=
  match n % 10 with
  | 0 => '0' | 1 => '1' | 2 => '2' | 3 => '3' | 4 => '4'
  | 5 => '5' | 6 => '6' | 7 => '7' | 8 => '8' | _ => '9'

/-- Two-digit zero-padded rendering of `n % 100`. -/
def pad2 (n : Nat) : List Char := [digChar (n / 10 % 10), digChar (n % 10)]

/-- Three-digit zero-padded rendering of `n % 1000`. -/
def pad3 (n : Nat) : List Char := [digChar (n / 100 % 10), digChar (n / 10 % 10), digChar (n % 10)]

/-- Four-digit zero-padded rendering of `n % 10000`. -/
def pad4 (n : Nat) : List Char :=
  [digChar (n / 1000 % 10), digChar (n / 100 % 10), digChar (n / 10 % 10), digChar (n % 10)]

/-- Character list of `moment(..).toISOString()`: `YYYY-MM-DDTHH:mm:ss.sssZ`. -/
def isoChars (dt : DateTime) : List Char :=
  pad4 dt.year ++ '-' :: pad2 dt.month ++ '-' :: pad2 dt.day ++
    'T' :: pad2 dt.hour ++ ':' :: pad2 dt.minute ++ ':' :: pad2 dt.second ++
    '.' :: pad3 dt.millis ++ ['Z']

/-- Model of `moment(..).toISOString()`. -/
def toIsoString (dt : DateTime) : String := String.mk (isoChars dt)

/-- Character list of `moment(..).format("YYYY-MM-DD")`. -/
def ymdChars (dt : DateTime) : List Char :=
  pad4 dt.year ++ '-' :: pad2 dt.month ++ '-' :: pad2 dt.day

/-- Model of `moment(..).format("YYYY-MM-DD")`. -/
def toYmdString (dt : DateTime) : String := String.mk (ymdChars dt)

/-- Range validity of the calendar fields (month 1–12, day 1–31, time-of-day
in range; the day-of-month/leap-year interaction is simplified to a uniform
31-day bound, which no claim exercises). -/
def validDT (_y mo d h mi s ms : Nat) : Bool :=
  1 ≤ mo && mo ≤ 12 && 1 ≤ d && d ≤ 31 && h ≤ 23 && mi ≤ 59 && s ≤ 59 && ms ≤ 999

/-- Consumes an expected literal character. -/
def expectChar (c : Char) : List Char → Option (List Char)
  | x :: rest => if x = c then some rest else none
  | [] => none

/-- Reads a two-digit decimal number. -/
def read2 : List Char → Option (Nat × List Char)
  | a :: b :: rest => do
    let x ← digVal a
    let y ← digVal b
    some (x * 10 + y, rest)
  | _ => none

/-- Reads a three-digit decimal number. -/
def read3 : List Char → Option (Nat × List Char)
  | a :: b :: c :: rest => do
    let x ← digVal a
    let y ← digVal b
    let z ← digVal c
    some (x * 100 + y * 10 + z, rest)
  | _ => none

/-- Reads a four-digit decimal number. -/
def read4 : List Char → Option (Nat × List Char)
  | a :: b :: c :: d :: rest => do
    let x ← digVal a
    let y ← digVal b
    let z ← digVal c
    let w ← digVal d
    some (x * 1000 + y * 100 + z * 10 + w, rest)
  | _ => none

/-- Reads the `YYYY-MM-DD` date part, returning year/month/day and the rest. -/
def readYmd (cs : List Char) : Option (Nat × Nat × Nat × List Char) := do
  let (y, cs) ← read4 cs
  let cs ← expectChar '-' cs
  let (mo, cs) ← read2 cs
  let cs ← expectChar '-' cs
  let (d, cs) ← read2 cs
  some (y, mo, d, cs)

/-- Parses `YYYY-MM-DD` (the whole input) into a midnight date-time. -/
def parseYmdChars (cs : List Char) : Option DateTime := do
  let (y, mo, d, rest) ← readYmd cs
  if rest = [] ∧ validDT y mo d 0 0 0 0 = true then some ⟨y, mo, d, 0, 0, 0, 0⟩
  else none

/-- Parses `YYYY-MM-DDTHH:mm:ss.sssZ` (the whole input). -/
def parseIsoChars (cs : List Char) : Option DateTime := do
  let (y, mo, d, cs) ← readYmd cs
  let cs ← expectChar 'T' cs
  let (h, cs) ← read2 cs
  let cs ← expectChar ':' cs
  let (mi, cs) ← read2 cs
  let cs ← expectChar ':' cs
  let (s, cs) ← read2 cs
  let cs ← expectChar '.' cs
  let (ms, cs) ← read3 cs
  let cs ← expectChar 'Z' cs
  if cs = [] ∧ validDT y mo d h mi s ms = true then some ⟨y, mo, d, h, mi, s, ms⟩
  else none

/-- Model of the external `moment(value)` constructor on the formats the
pipeline uses: a `YYYY-MM-DD` string or an ISO-8601 string.  `none` models an
invalid moment. -/
def momentParse : JValue → Option DateTime
  | .str s =>
    match parseYmdChars s.data with
    | some dt => some dt
    | none => parseIsoChars s.data
  | _ => none

/-- Modelled from the spec: the repository's `util.parseTime` helper is not
under `src/`; per the spec, a `Time` value is "validated against a time-of-day
grammar and passed through unchanged if valid".  Modelled as an `HH:mm` or
`HH:mm:ss` grammar on strings. -/
def parseTimeValid : JValue → Bool
  | .str s =>
    (Option.isSome <| do
      let (h, cs) ← read2 s.data
      let cs ← expectChar ':' cs
      let (mi, cs) ← read2 cs
      let cs ←
        match cs with
        | [] => if h ≤ 23 ∧ mi ≤ 59 then some ([] : List Char) else none
        | _ => do
          let cs ← expectChar ':' cs
          let (ss, cs) ← read2 cs
          if h ≤ 23 ∧ mi ≤ 59 ∧ ss ≤ 59 then some cs else none
      if cs = [] then some () else none)
  | _ => false

/-! ## Value coercion (`coerce` in mload.js) -/

/-- Result of a coercion: the coerced value and whether a coercion warning was
printed (the `Int`/`Float` not-a-number warning). -/
structure CoerceResult where
  rval : JValue
  warned : Bool

/-- Embedding of `coerce({type, val, def, quoted, isoDate})` from mload.js.
An `Except.error` models the `throw new Error(..)` for an invalid date or
time, which the NDF path does not catch. -/
def coerce (ty : String) (val : JValue) (defv : JValue) (quoted : Bool)
    (isoDate : Bool) : Except String CoerceResult :=
  if ty == "Float" then
    match val with
    | .str s =>
      match jsParseNumber s with
      | some q => .ok ⟨.num q, false⟩
      | none => .ok ⟨defv, true⟩
    | .num q => .ok ⟨.num q, false⟩
    | _ => .ok ⟨defv, false⟩
  else if ty == "Int" then
    match val with
    | .str s =>
      match jsParseNumber s with
      | some q => .ok ⟨.num q, false⟩
      | none => .ok ⟨defv, true⟩
    | .num q => .ok ⟨.num q, false⟩
    | _ => .ok ⟨defv, false⟩
  else if ty == "Boolean" then
    match val with
    | .str s =>
      if jsToLower s == "true" then .ok ⟨.bool true, false⟩
      else if jsToLower s == "false" then .ok ⟨.bool false, false⟩
      else .ok ⟨defv, false⟩
    | .bool b => .ok ⟨.bool b, false⟩
    | _ => .ok ⟨defv, false⟩
  else if ty == "Date" || ty == "DateTime" || ty == "Time" then
    -- `rval = !val || val == '' ? def : cvtDate()`
    if jsFalsy val then .ok ⟨defv, false⟩
    else if ty == "Time" then
      if parseTimeValid val then
        if quoted then .ok ⟨.str ("\"" ++ jsToStr val ++ "\""), false⟩
        else .ok ⟨val, false⟩
      else .error ("Invalid time: " ++ jsToStr val)
    else
      match momentParse val with
      | none => .error ("Invalid date/time: " ++ jsToStr val)
      | some dt =>
        let dateStr :=
          if (ty == "Date" && isoDate) || ty == "DateTime" then toIsoString dt
          else toYmdString dt
        if quoted then .ok ⟨.str ("\"" ++ dateStr ++ "\""), false⟩
        else .ok ⟨.str dateStr, false⟩
  else if !quoted then
    match val with
    | .str s => .ok ⟨.str s, false⟩
    | v => .ok ⟨.str (jsonStringify v), false⟩
  else .ok ⟨.str (jsonStringify val), false⟩

example : coerce "Boolean" (.str "TRUE") .null false false = .ok ⟨.bool true, false⟩ := rfl
example : coerce "Int" (.str "abc") .null false false = .ok ⟨.null, true⟩ := rfl
example : coerce "Date" (.str "2020-01-05") .null false true =
    .ok ⟨.str "2020-01-05T00:00:00.000Z", false⟩ := rfl

/-! ## GraphQL schema reflection -/

/-- A GraphQL type reference: a named type possibly wrapped in list and
non-null wrappers. -/
inductive GType where
  | named : String → GType
  | list : GType → GType
  | nonNull : GType → GType
deriving DecidableEq

/-- The innermost named type (`getNamedType`). -/
def getNamedTypeName : GType → String
  | .named n => n
  | .list t => getNamedTypeName t
  | .nonNull t => getNamedTypeName t

/-- Suffix test on the character lists (avoids position-based core string
functions so that proofs can evaluate it). -/
def strEndsWith (s suffix : String) : Bool :=
  s.data.reverse.take suffix.data.length == suffix.data.reverse

/-- The unwrapping loop of `typeIsList`: strips non-null wrappers until a list
wrapper or a named type is reached. -/
def typeIsListLoop : GType → Bool
  | .named _ => false
  | .list _ => true
  | .nonNull t => typeIsListLoop t

/-- Embedding of `typeIsList` from mload.js: the outermost type's *name* is
checked for the `Connection` suffix (wrappers have no name), then list/non-null
wrappers are unwrapped looking for a list. -/
def typeIsList (t : GType) : Bool :=
  (match t with
   | .named n => strEndsWith n "Connection"
   | _ => false) || typeIsListLoop t

/-- Outer non-null test (`isNonNullType(field.type)`). -/
def isNonNullOuter : GType → Bool
  | .nonNull _ => true
  | _ => false

/-- A named schema type with its field definitions. -/
structure SType where
  name : String
  fields : List (String × GType)
deriving DecidableEq

/-- The schema: its named types plus the set of type names that are object
types (`isObjectType`); scalar names such as `Int` or `String` are not in
`objectNames`. -/
structure Schema where
  types : List SType
  objectNames : List String
deriving DecidableEq

/-- `schema.getType(name)`. -/
def getType (sch : Schema) (name : String) : Option SType :=
  sch.types.find? (fun t => t.name == name)

/-- Per-field information computed by `getField` in mload.js (the `typeCache`
memoization is semantically transparent and omitted). `none` models the
`throw` on an undefined field. -/
structure FieldInfo where
  isList : Bool
  isNonNull : Bool
  isObject : Bool
  namedType : String
deriving DecidableEq

/-- Embedding of `getField(type, fieldName)`. -/
def getField (sch : Schema) (ty : SType) (fieldName : String) : Option FieldInfo :=
  match ty.fields.find? (fun kv => kv.1 == fieldName) with
  | none => none
  | some kv =>
    some ⟨typeIsList kv.2, isNonNullOuter kv.2,
      sch.objectNames.contains (getNamedTypeName kv.2), getNamedTypeName kv.2⟩

/-! ## Identifier normalizer (`mkNdfId`) -/

/-- Modelled from the spec: the `md5-base64` npm package is an external
dependency (not part of this repository); per the spec the normalizer must
"compute a content hash of `rawId`, encode it, and truncate/pad to fit the
25-character ceiling deterministically".  The MD5 core is modelled as a
deterministic 16-byte content digest (four seeded 32-bit folds); only its
determinism and 16-byte width matter to the claims. -/
def digestWord (seed : Nat) (cs : List Char) : Nat :=
  cs.foldl (fun h c => (h * 31 + c.toNat + 1) % 4294967296) seed

/-- Big-endian byte decomposition of a 32-bit word. -/
def wordBytes (w : Nat) : List Nat :=
  [w / 16777216 % 256, w / 65536 % 256, w / 256 % 256, w % 256]

/-- The 16-byte content digest of a string (see `digestWord`). -/
def digestBytes (s : String) : List Nat :=
  wordBytes (digestWord 17 s.data) ++ wordBytes (digestWord 101 s.data) ++
  wordBytes (digestWord 4099 s.data) ++ wordBytes (digestWord 65537 s.data)

/-- The base64 alphabet. -/
def b64Char (n : Nat) : Char :=
  "ABCDEFGHIJKLMNOPQRSTUVWXYZabcdefghijklmnopqrstuvwxyz0123456789+/".data.getD n 'A'

/-- Standard base64 encoding of a byte list (with `=` padding). -/
def b64Encode : List Nat → List Char
  | [] => []
  | [a] => [b64Char (a / 4), b64Char (a % 4 * 16), '=', '=']
  | [a, b] => [b64Char (a / 4), b64Char (a % 4 * 16 + b / 16), b64Char (b % 16 * 4), '=']
  | a :: b :: c :: rest =>
    b64Char (a / 4) :: b64Char (a % 4 * 16 + b / 16) ::
      b64Char (b % 16 * 4 + c / 64) :: b64Char (c % 64) :: b64Encode rest

/-- Model of the `md5-base64` npm package: base64 of the 16-byte digest. -/
def md5Base64 (s : String) : String := String.mk (b64Encode (digestBytes s))

/-- JS `str.slice(0, -2)`: drop the final two characters. -/
def sliceDropLast2 (s : String) : String := String.mk (s.data.take (s.data.length - 2))

/-- Embedding of `mkNdfId` from mload.js:
`id => (id.length > 25 ? md5Base64(id).slice(0, -2) : id)`. -/
def mkNdfId (id : String) : String :=
  if id.length > 25 then sliceDropLast2 (md5Base64 id) else id

/-- `mkNdfId` applied to a dynamic value: JS reads `.length` (strings and
arrays only; other values have no `.length`, the comparison with 25 is false,
and the value passes through unchanged) and hashes via implicit string
conversion. -/
def mkNdfIdJ : JValue → JValue
  | .str s => .str (mkNdfId s)
  | .arr xs =>
    if xs.length > 25 then .str (sliceDropLast2 (md5Base64 (jsToStrList xs)))
    else .arr xs
  | v => v

/-! ## NDF converter (`convertToNdf`) -/

/-- The relation accumulator entry `{toType, toIds}` built per object field. -/
structure RelVal where
  toType : String
  toIds : List JValue

/-- An NDF node or list entry `{_typeName, id, ...fields}`. -/
structure NdfEntity where
  typeName : String
  id : JValue
  fields : List (String × JValue)

/-- An NDF relation pair
`[{_typeName, id, fieldName}, {_typeName: toType, id: toId}]`. -/
structure RelPair where
  fromType : String
  fromId : JValue
  fieldName : String
  toType : String
  toId : JValue

/-- The three per-entity accumulators (`nodeValues`, `listValues`,
`relValues`). -/
structure ClassAcc where
  nodeValues : List (String × JValue)
  listValues : List (String × JValue)
  relValues : List (String × RelVal)

/-- The value a non-list, non-object field contributes to an NdfNode:
normalized for `ID`-typed fields, coerced (iso-date mode) otherwise; an
`Except.error` models an uncaught invalid-date throw. -/
def scalarNdfValue (info : FieldInfo) (v : JValue) : Except String JValue :=
  if info.namedType == "ID" then .ok (mkNdfIdJ v)
  else (coerce info.namedType v .null false true).map (fun r => r.rval)

/-- The per-entity field classification loop of `convertToNdf`: walks the
non-id fields in order and sorts each into node-scalar, list, or relation
values.  An `Except.error` models the uncaught JS exceptions on an undefined
field, an invalid date, or a missing `.map` on a non-array object-list
value. -/
def classifyFields (sch : Schema) (ty : SType) : List (String × JValue) → Except String ClassAcc
  | [] => .ok ⟨[], [], []⟩
  | (f, v) :: rest => do
    let acc ← classifyFields sch ty rest
    match getField sch ty f with
    | none => .error ("Undefined field: " ++ f)
    | some info =>
      if info.isList then
        if info.isObject then
          match v with
          | .arr xs =>
            .ok ⟨acc.nodeValues, acc.listValues,
              (f, ⟨info.namedType, xs.map mkNdfIdJ⟩) :: acc.relValues⟩
          | _ => .error ("TypeError: " ++ f ++ ".map is not a function")
        else
          .ok ⟨acc.nodeValues,
            (f, if info.namedType == "ID" then mkNdfIdJ v else v) :: acc.listValues,
            acc.relValues⟩
      else if info.isObject then
        .ok ⟨acc.nodeValues, acc.listValues, (f, ⟨info.namedType, [mkNdfIdJ v]⟩) :: acc.relValues⟩
      else do
        let value ← scalarNdfValue info v
        if jsIsNull value then .ok acc
        else .ok ⟨(f, value) :: acc.nodeValues, acc.listValues, acc.relValues⟩

/-- Classification of one entity: all fields except `id`. -/
def classifyEntity (sch : Schema) (ty : SType) (entity : Record) : Except String ClassAcc :=
  classifyFields sch ty (entity.filter (fun kv => !(kv.1 == "id")))

/-- JSON rendering of a record (used only inside error messages). -/
def jsonStringifyRecord (r : Record) : String :=
  "\x7b" ++ String.intercalate ","
    (r.map (fun kv => "\"" ++ jsonEscape kv.1 ++ "\":" ++ jsonStringify kv.2)) ++ "\x7d"

/-- The mutable conversion state of `convertToNdf` plus the per-run slice of
the `fileResults` aggregate: the three in-memory buffers, the written NDF
files per category (file name and contents, in write order), the generation
and file counters, the per-file dedupe table (insertion order preserved), the
entity/error counters, the recorded NDF error messages, and whether the run
incremented the `succeed` counter. -/
structure ConvState where
  nodes : List NdfEntity
  lists : List NdfEntity
  relations : List RelPair
  writtenNodes : List (String × List NdfEntity)
  writtenLists : List (String × List NdfEntity)
  writtenRels : List (String × List RelPair)
  ndfGenCnt : Nat
  ndfFileCnt : Nat
  dedupe : List (String × JValue)
  entityCnt : Nat
  errorCnt : Nat
  ndfErrors : List String
  succeedInc : Bool

/-- The empty starting state. -/
def initConvState : ConvState :=
  ⟨[], [], [], [], [], [], 0, 0, [], 0, 0, [], false⟩

/-- Zero-padded generation name: `` `${n}`.padStart(5, '0') ``. -/
def padGen (n : Nat) : String :=
  let s := toString n
  String.mk (List.replicate (5 - s.length) '0') ++ s

/-- Embedding of `flush` from `convertToNdf`: if any buffer is non-empty,
advance the generation counter and write each non-empty buffer to its own
numbered file, clearing it and counting the file. -/
def flushState (st : ConvState) : ConvState :=
  if st.nodes.isEmpty && st.lists.isEmpty && st.relations.isEmpty then st
  else
    let gen := st.ndfGenCnt + 1
    let name := padGen gen
    let st1 := { st with ndfGenCnt := gen }
    let st2 :=
      if st1.nodes.isEmpty then st1
      else { st1 with writtenNodes := st1.writtenNodes ++ [(name, st1.nodes)],
                      nodes := [], ndfFileCnt := st1.ndfFileCnt + 1 }
    let st3 :=
      if st2.lists.isEmpty then st2
      else { st2 with writtenLists := st2.writtenLists ++ [(name, st2.lists)],
                      lists := [], ndfFileCnt := st2.ndfFileCnt + 1 }
    if st3.relations.isEmpty then st3
    else { st3 with writtenRels := st3.writtenRels ++ [(name, st3.relations)],
                    relations := [], ndfFileCnt := st3.ndfFileCnt + 1 }

/-- Embedding of the per-entity body of the `data.forEach` loop in
`convertToNdf`: missing-id and duplicate-id checks (error, count, skip),
classification, appending to the three buffers, and the periodic flush every
`flushEvery` successfully classified entities (`flushEvery = 0` disables the
periodic flush; the source hardcodes 10000). -/
def processEntity (sch : Schema) (ty : SType) (typeName : String) (flushEvery : Nat)
    (st : ConvState) (entity : Record) : Except String ConvState :=
  match jsGet entity "id" with
  | none =>
    .ok { st with
      ndfErrors := st.ndfErrors ++ ["entity missing id: " ++ jsonStringifyRecord entity],
      errorCnt := st.errorCnt + 1 }
  | some rawId =>
    if jsFalsy rawId then
      .ok { st with
        ndfErrors := st.ndfErrors ++ ["entity missing id: " ++ jsonStringifyRecord entity],
        errorCnt := st.errorCnt + 1 }
    else
      let idJ := mkNdfIdJ rawId
      let key := jsToStr idJ
      match st.dedupe.find? (fun kv => kv.1 == key) with
      | some kv =>
        .ok { st with
          ndfErrors := st.ndfErrors ++
            ["duplicate id: " ++ jsToStr rawId ++ " => " ++ jsToStr kv.2],
          errorCnt := st.errorCnt + 1 }
      | none =>
        let st := { st with dedupe := st.dedupe ++ [(key, rawId)] }
        (classifyEntity sch ty entity).map (fun acc =>
          let nodeEntry : NdfEntity := ⟨typeName, idJ, acc.nodeValues⟩
          let listEntry : NdfEntity := ⟨typeName, idJ, acc.listValues⟩
          let st := { st with nodes := st.nodes ++ [nodeEntry] }
          let st :=
            if acc.listValues.isEmpty then st
            else { st with lists := st.lists ++ [listEntry] }
          let pairs := acc.relValues.flatMap (fun kv =>
            kv.2.toIds.map (fun toId => RelPair.mk typeName idJ kv.1 kv.2.toType toId))
          let st := { st with relations := st.relations ++ pairs }
          let st := { st with entityCnt := st.entityCnt + 1 }
          if flushEvery ≠ 0 ∧ st.entityCnt % flushEvery = 0 then flushState st else st)

/-- Embedding of `convertToNdf` for one input file, from the resolved schema
type to the final flush and the success decision.  The pre-loop configuration
failures (type not found in schema, type without an `id` field) are modelled
as `Except.error`: no conversion state arises from them (in the source the
first is an in-band error-list push and the second an uncaught throw). -/
def convertRun (sch : Schema) (typeName : String) (flushEvery : Nat)
    (data : List Record) : Except String ConvState :=
  match getType sch typeName with
  | none => .error ("type not found in schema: " ++ typeName)
  | some baseType =>
    match getField sch baseType "id" with
    | none => .error "Undefined field: id"
    | some _ => do
      let final ← data.foldlM (processEntity sch baseType typeName flushEvery) initConvState
      let final := flushState final
      .ok { final with succeedInc := final.errorCnt == 0 }

/-! ## Mutation builder (`buildMutation`) -/

/-- Rendering of a coerced value inside `Array.prototype.join`: JS `join`
renders `null` (and `undefined`) as the empty string. -/
def renderJoinElem : JValue → String
  | .null => ""
  | v => jsToStr v

/-- Embedding of the per-field body of the row mapper in `buildMutation`:
produces the `fieldName: value` fragment or throws (`Except.error`) on an
undefined field or a shape mismatch between an array value and a non-list
field (and vice versa).  Note the source appends a newline to scalar
fragments but not to list fragments. -/
def mkFieldFragment (sch : Schema) (tyDef : SType) (f : String) (v : JValue) :
    Except String String :=
  match getField sch tyDef f with
  | none => .error ("Undefined field: " ++ f)
  | some info =>
    match v with
    | .arr xs =>
      if !info.isList then
        .error ("Unexpected collection for " ++ f)
      else if xs.length = 0 then .ok (f ++ ": null")
      else do
        let values ← xs.mapM (fun x =>
          (coerce info.namedType x .null true false).map (fun r => r.rval))
        .ok (f ++ ": [" ++ String.intercalate "," (values.map renderJoinElem) ++ "]")
    | _ =>
      if info.isList then .error ("Expected collection for " ++ f)
      else do
        let c ← coerce info.namedType v .null true false
        .ok (f ++ ": " ++ jsToStr c.rval ++ "\n")

/-- Embedding of the per-row mapper in `buildMutation`: all fields of the row
(including `id`) are rendered; the surrounding `try`/`catch` swallows any
field error, logs it, and leaves the instance `undefined` (`none`). -/
def mkInstance (sch : Schema) (tyDef : SType) (row : Record) : Option String :=
  match row.mapM (fun kv => mkFieldFragment sch tyDef kv.1 kv.2) with
  | .ok frs => some ("\x7b" ++ String.intercalate "," frs ++ "\x7d")
  | .error _ => none

/-- Embedding of `buildMutation(mutationField, inputType, typeDef, data)`.
A list-typed `input` argument produces one call with an array argument
(`Array.join` renders an `undefined` instance as the empty string); a
singular `input` produces aliased selections `m0:`, `m1:`, ... (template
interpolation renders an `undefined` instance as the text `undefined`). -/
def buildMutation (sch : Schema) (mutationName : String) (inputType : GType)
    (tyDef : SType) (data : List Record) : String :=
  let instances := data.map (mkInstance sch tyDef)
  if typeIsList inputType then
    "mutation \x7b " ++ mutationName ++ "(input:[" ++
      String.intercalate ", " (instances.map (fun i => i.getD "")) ++ "]) \x7d"
  else
    let mutations := String.intercalate "\n"
      (instances.enum.map (fun p =>
        "m" ++ toString p.1 ++ ": " ++ mutationName ++ "(input:" ++
          (match p.2 with
           | some s => s
           | none => "undefined") ++ ")"))
    "mutation \x7b " ++ mutations ++ " \x7d"

/-! ## Batch uploader (`uploadViaMutation`) -/

/-- `DEFAULT_BATCH_SIZE` from mload.js. -/
def DEFAULT_BATCH_SIZE : Nat := 1000000

/-- The classification of one awaited `client.request` call, i.e. the
environment's response to one batch: a response carrying a top-level `errors`
list, a successful response with the given number of `null` named results, or
a thrown transport exception. -/
inductive UploadOutcome where
  | resultErrors : UploadOutcome
  | resultOk : Nat → UploadOutcome
  | transportError : UploadOutcome

/-- The per-file upload state: batches and mutation texts sent (in order),
the environment responses not yet consumed, the per-file upload-error counter
(`fileResults.errors.uploading[filePath]`), the per-file mutation-error count
(`fileResults.errors.mutation` pushes), whether the batch loop ran to
completion, and whether the file incremented `fileResults.succeed`. -/
structure UpState where
  sent : List (List Record)
  requests : List String
  pendingOutcomes : List UploadOutcome
  uploadErrors : Nat
  mutationErrors : Nat
  completed : Bool
  succeedInc : Bool

/-- Error accounting for one response (`incErrors` in the source): a response
with `errors` or a thrown exception counts one upload error; a success —
with or without partial `null` results — counts none. -/
def applyOutcome (st : UpState) (o : UploadOutcome) : UpState :=
  match o with
  | .resultErrors => { st with uploadErrors := st.uploadErrors + 1 }
  | .resultOk _ => st
  | .transportError => { st with uploadErrors := st.uploadErrors + 1 }

/-- Embedding of the batch `while` loop of `uploadViaMutation` plus the final
success check.  The fuel argument only serves termination: `uploadRun` passes
`data.length + 1`, which is enough for any positive batch size.  The source
wraps `buildMutation` in `try`/`catch` and then checks `!mutation`; since
`buildMutation` never throws (its row errors are swallowed internally) and
never returns an empty string, only the empty-string guard is modelled and it
is provably dead (`buildMutation_ne_empty`).  When the environment supplies
fewer outcomes than there are batches the remaining requests are treated as
clean successes. -/
def uploadLoop (sch : Schema) (mutationName : String) (inputType : GType) (tyDef : SType)
    (data : List Record) (batchSize : Nat) : Nat → Nat → UpState → UpState
  | 0, _, st => st
  | fuel + 1, offset, st =>
    if offset < data.length then
      let e := min (offset + batchSize) data.length
      let batch := (data.drop offset).take (e - offset)
      let mutation := buildMutation sch mutationName inputType tyDef batch
      if mutation = "" then { st with mutationErrors := st.mutationErrors + 1 }
      else
        let st := { st with sent := st.sent ++ [batch],
                            requests := st.requests ++ [mutation] }
        let o :=
          match st.pendingOutcomes with
          | [] => UploadOutcome.resultOk 0
          | o :: _ => o
        let st := applyOutcome { st with pendingOutcomes := st.pendingOutcomes.tail } o
        uploadLoop sch mutationName inputType tyDef data batchSize fuel (offset + batchSize) st
    else
      let st := { st with completed := true }
      if st.uploadErrors = 0 then { st with succeedInc := true } else st

/-- The effective batch size `context.argv.batchsize || DEFAULT_BATCH_SIZE`:
an absent or zero (falsy) argument falls back to the default, so the
effective size is always positive. -/
def effBatch : Option Nat → Nat
  | some n => if n = 0 then DEFAULT_BATCH_SIZE else n
  | none => DEFAULT_BATCH_SIZE

/-- Embedding of `uploadViaMutation` from the resolved mutation and input
type onward: effective batch size, then the batch loop. -/
def uploadRun (sch : Schema) (mutationName : String) (inputType : GType) (tyDef : SType)
    (data : List Record) (batchSizeArg : Option Nat) (outcomes : List UploadOutcome) : UpState :=
  uploadLoop sch mutationName inputType tyDef data (effBatch batchSizeArg) (data.length + 1) 0
    ⟨[], [], outcomes, 0, 0, false, false⟩

/-! ## Derived projections and concrete fixtures used by the theorems -/

/-- All values written across the files of one NDF category, in write order. -/
def filesJoin {α : Type} (files : List (String × List α)) : List α :=
  (files.map (fun f => f.2)).flatten

/-- The observable conversion outcome that flushing must not change: the
total emitted entries per category (files written so far plus the in-memory
buffer), the dedupe table, the entity and error counters, the recorded error
messages, and the success flag. -/
def convObs (st : ConvState) :
    (List NdfEntity × List NdfEntity × List RelPair) ×
      List (String × JValue) × Nat × Nat × List String × Bool :=
  ((filesJoin st.writtenNodes ++ st.nodes,
    filesJoin st.writtenLists ++ st.lists,
    filesJoin st.writtenRels ++ st.relations),
   st.dedupe, st.entityCnt, st.errorCnt, st.ndfErrors, st.succeedInc)

/-- Whether the classifier put field `f` into the node-scalar category. -/
def inNodeCat (acc : ClassAcc) (f : String) : Bool :=
  acc.nodeValues.any (fun kv => kv.1 == f)

/-- Whether the classifier put field `f` into the list category. -/
def inListCat (acc : ClassAcc) (f : String) : Bool :=
  acc.listValues.any (fun kv => kv.1 == f)

/-- Whether field `f` produces at least one emitted relation pair (a
`relValues` entry with an empty `toIds` list emits no pairs). -/
def inRelCat (acc : ClassAcc) (f : String) : Bool :=
  acc.relValues.any (fun kv => kv.1 == f && !kv.2.toIds.isEmpty)

/-- In how many of the three emitted categories field `f` appears. -/
def catCount (acc : ClassAcc) (f : String) : Nat :=
  (inNodeCat acc f).toNat + (inListCat acc f).toNat + (inRelCat acc f).toNat

/-- The two ways the classifier drops a field from all outputs: a non-list
non-object field whose normalized/coerced value is `null`, and an object-list
field whose value is an empty array. -/
def fieldDropped (info : FieldInfo) (v : JValue) : Bool :=
  if info.isList then
    if info.isObject then
      match v with
      | .arr xs => xs.isEmpty
      | _ => false
    else false
  else if info.isObject then false
  else
    match scalarNdfValue info v with
    | .ok value => jsIsNull value
    | .error _ => false

/-- The field ranges every date-time produced by the parsers satisfies; the
formatter-parser roundtrip holds on this set. -/
def validDTFull (dt : DateTime) : Prop :=
  dt.year ≤ 9999 ∧ 1 ≤ dt.month ∧ dt.month ≤ 12 ∧ 1 ≤ dt.day ∧ dt.day ≤ 31 ∧
    dt.hour ≤ 23 ∧ dt.minute ≤ 59 ∧ dt.second ≤ 59 ∧ dt.millis ≤ 999

/-- Lower-case-letter digit alphabet used to build concrete distinct
identifiers for the flush-equivalence scenario. -/
def decDigitChar (n : Nat) : Char :=
  match n with
  | 0 => 'a' | 1 => 'b' | 2 => 'c' | 3 => 'd' | 4 => 'e'
  | 5 => 'f' | 6 => 'g' | 7 => 'h' | 8 => 'i' | _ => 'j'

/-- Inverse of `decDigitChar` on its range. -/
def decDigitVal (c : Char) : Nat :=
  match c with
  | 'a' => 0 | 'b' => 1 | 'c' => 2 | 'd' => 3 | 'e' => 4
  | 'f' => 5 | 'g' => 6 | 'h' => 7 | 'i' => 8 | _ => 9

/-- Base-10 digit expansion of `n` over the letter alphabet; the first
argument is recursion fuel (any value with `n < 10 ^ fuel` is enough). -/
def decStrAux : Nat → Nat → List Char
  | 0, _ => []
  | fuel + 1, n =>
    if n < 10 then [decDigitChar n]
    else decStrAux fuel (n / 10) ++ [decDigitChar (n % 10)]

/-- A short (≤ 25 characters for the sizes used), non-empty, injective string
encoding of a natural number. -/
def decStr (n : Nat) : String := String.mk (decStrAux (n + 1) n)

/-- Decodes a digit-letter list back to the number. -/
def decVal (cs : List Char) : Nat :=
  cs.foldl (fun acc c => acc * 10 + decDigitVal c) 0

/-- `n` records, each consisting of only a distinct valid `id` field. -/
def sampleRecords (n : Nat) : List Record :=
  (List.range n).map (fun i => [("id", JValue.str (decStr i))])

/-- Schema fixture: an object type `T` whose only field is `id: ID`. -/
def schemaIdOnly : Schema := ⟨[⟨"T", [("id", .named "ID")]⟩], ["T"]⟩

/-- Schema fixture for the completeness counterexample: `T` has `id: ID` and
a scalar `x: Int`. -/
def tyWithInt : SType := ⟨"T", [("id", .named "ID"), ("x", .named "Int")]⟩

/-- The schema holding `tyWithInt`. -/
def schemaWithInt : Schema := ⟨[tyWithInt], ["T"]⟩

/-- The completeness counterexample record: a valid id and an `Int` field
whose string value does not parse as a number. -/
def entWithBadInt : Record := [("id", .str "a"), ("x", .str "abc")]

/-- Schema-type fixture with `id: ID` and a scalar `s: String`. -/
def tyWithStr : SType := ⟨"T", [("id", .named "ID"), ("s", .named "String")]⟩

/-- The schema holding `tyWithStr`. -/
def schemaWithStr : Schema := ⟨[tyWithStr], ["T"]⟩

/-- Input-type fixture for the shape-mismatch scenario: `tags` is declared as
a plain (non-list) `String`. -/
def tyTagsScalar : SType := ⟨"TInput", [("tags", .named "String")]⟩

/-- The schema holding `tyTagsScalar`. -/
def schemaTagsScalar : Schema := ⟨[tyTagsScalar], []⟩

/-- The shape-mismatch record: `tags` carries an array value. -/
def rowTagsArr : Record := [("tags", .arr [.str "a", .str "b"])]

/-- Input-type fixture with a list-typed `tags` field. -/
def tyTagsList : SType := ⟨"TInput", [("tags", .list (.named "String"))]⟩

/-- The schema holding `tyTagsList`. -/
def schemaTagsList : Schema := ⟨[tyTagsList], []⟩

/-- Input-type fixture with no fields, used for batch-slicing runs whose
records are empty objects. -/
def tyEmpty : SType := ⟨"E", []⟩

/-- The schema holding `tyEmpty`. -/
def schemaEmpty : Schema := ⟨[tyEmpty], []⟩

/-- `n` empty records. -/
def emptyRecords (n : Nat) : List Record := List.replicate n []

/-- Contiguous slicing of a list into chunks of at most `bs` elements (the
reference shape of the uploader's batch loop); the fuel argument of
`chunksAux` only serves termination. -/
def chunksAux (bs : Nat) : Nat → List α → List (List α)
  | _, [] => []
  | 0, _ :: _ => []
  | fuel + 1, x :: xs => ((x :: xs).take bs) :: chunksAux bs fuel ((x :: xs).drop bs)

/-- `chunks bs l` slices `l` into contiguous chunks of at most `bs`. -/
def chunks (bs : Nat) (l : List α) : List (List α) := chunksAux bs l.length l

/-- One iteration of the uploader's batch loop, as a state transformer:
record the sent batch and its mutation text, consume the next environment
outcome (a missing outcome is a clean success), and account errors. -/
def sendBatch (sch : Schema) (mn : String) (it : GType) (ty : SType)
    (st : UpState) (batch : List Record) : UpState :=
  let st := { st with sent := st.sent ++ [batch],
                      requests := st.requests ++ [buildMutation sch mn it ty batch] }
  let o :=
    match st.pendingOutcomes with
    | [] => UploadOutcome.resultOk 0
    | o :: _ => o
  applyOutcome { st with pendingOutcomes := st.pendingOutcomes.tail } o

/-- The post-loop step of `uploadViaMutation`: mark the loop complete and
increment the per-run success flag if the file accumulated no upload
errors. -/
def finishUp (st : UpState) : UpState :=
  let st := { st with completed := true }
  if st.uploadErrors = 0 then { st with succeedInc := true } else st

/-- Whether a response outcome is accounted as an upload error (a response
with an `errors` list or a thrown transport exception; a success is not, even
with partial `null` results). -/
def isErrorOutcome : UploadOutcome → Bool
  | .resultOk _ => false
  | _ => true

/-! ## Theorems: identifier normalization (C3) and coercion cases (C7) -/

/-- The base64 encoding of the 16-byte digest has exactly 24 characters. -/
theorem md5Base64_data_length (s : String) : (md5Base64 s).data.length = 24 := by
  show (b64Encode (digestBytes s)).length = 24
  simp [digestBytes, wordBytes, b64Encode]

/-- Dropping the two `=` padding characters leaves 22 characters. -/
theorem mkNdfId_length_of_long (s : String) (h : s.length > 25) :
    (mkNdfId s).length = 22 := by
  have h24 := md5Base64_data_length s
  rw [mkNdfId, if_pos h]
  show ((md5Base64 s).data.take ((md5Base64 s).data.length - 2)).length = 22
  rw [List.length_take, h24]
  omega

/-- Claim C3 — identifier normalization: `mkNdfId` is deterministic (it is a
pure function of its argument), its result never exceeds 25 characters, and
strings of at most 25 characters pass through unchanged. -/
theorem C3_id_normalization (s : String) :
    mkNdfId s = mkNdfId s ∧ (mkNdfId s).length ≤ 25 ∧
      (s.length ≤ 25 → mkNdfId s = s) := by
  refine ⟨rfl, ?_, ?_⟩
  · by_cases h : s.length > 25
    · have := mkNdfId_length_of_long s h
      omega
    · simp only [mkNdfId, if_neg h]
      omega
  · intro h
    have h' : ¬ s.length > 25 := by omega
    simp [mkNdfId, h']

/-- Witness for C3 at concrete inputs: a short identifier is unchanged and a
29-character identifier is normalized to 22 characters, within the bound. -/
theorem C3_id_normalization_witness :
    mkNdfId "abc" = "abc" ∧ (mkNdfId "a-very-long-identifier-xxxxx").length ≤ 25 :=
  ⟨(C3_id_normalization "abc").2.2 (by decide), (C3_id_normalization "a-very-long-identifier-xxxxx").2.1⟩

/-- Claim C7 — coercion cases: `coerce("Boolean", "TRUE")` yields `true`;
`coerce("Int", "abc")` yields the default `null` and flags a coercion
warning; `coerce("Date", "2020-01-05")` in ISO mode yields the string
`2020-01-05T00:00:00.000Z`. -/
theorem C7_coercion_cases :
    coerce "Boolean" (.str "TRUE") .null false false = .ok ⟨.bool true, false⟩ ∧
    coerce "Int" (.str "abc") .null false false = .ok ⟨.null, true⟩ ∧
    coerce "Date" (.str "2020-01-05") .null false true =
      .ok ⟨.str "2020-01-05T00:00:00.000Z", false⟩ :=
  ⟨rfl, rfl, rfl⟩

/-! ## Theorems: duplicate detection (C4) -/

/-- Claim C4 — duplicate detection: converting `[{id:"a"}, {id:"a"}]` emits
exactly one NdfNode (one written node file containing the single entry
`{_typeName:"T", id:"a"}` and an empty buffer), records exactly one
duplicate-id error, leaves the per-file error counter at 1, and the file is
not aborted (the run completes, with the duplicate merely skipped). -/
theorem C4_duplicate_detection :
    (convertRun schemaIdOnly "T" 10000 [[("id", .str "a")], [("id", .str "a")]]).map
      (fun st => (st.writtenNodes.map (fun f => (f.1, f.2.map (fun e =>
          (e.typeName, e.id, e.fields)))),
        st.nodes.length, st.errorCnt, st.ndfErrors, st.entityCnt, st.succeedInc)) =
    .ok ([("00001", [("T", .str "a", [])])], 0, 1, ["duplicate id: a => a"], 1, false) := rfl

/-! ## Theorems: empty-array list fields in the mutation builder (C10) -/

/-- Claim C10 — a list-typed field whose record value is an empty array is
rendered as the literal `fieldName: null` in the mutation text, whatever the
field's element type is (the per-element coercion loop is never consulted). -/
theorem C10_empty_list_renders_null (sch : Schema) (tyDef : SType) (f : String)
    (info : FieldInfo) (hf : getField sch tyDef f = some info) (hl : info.isList = true) :
    mkFieldFragment sch tyDef f (.arr []) = .ok (f ++ ": null") := by
  simp [mkFieldFragment, hf, hl]

/-- Witness for C10 at a concrete schema: a `tags: [String]` field with the
value `[]` renders as `tags: null`, and the whole instance renders as
`{tags: null}`. -/
theorem C10_empty_list_renders_null_witness :
    mkFieldFragment schemaTagsList tyTagsList "tags" (.arr []) = .ok "tags: null" :=
  C10_empty_list_renders_null schemaTagsList tyTagsList "tags"
    ⟨true, false, false, "String"⟩ rfl rfl

/-! ## Theorems: batch slicing (C6), upload success (C9), shape mismatch (C5) -/

/-- The fuel argument of `chunksAux` is irrelevant once it covers the list
length (for a positive chunk size). -/
theorem chunksAux_fuel_irrel {α : Type} (bs : Nat) (hbs : 1 ≤ bs) :
    ∀ (n : Nat) (l : List α) (f1 f2 : Nat), l.length ≤ n → l.length ≤ f1 →
      l.length ≤ f2 → chunksAux bs f1 l = chunksAux bs f2 l := by
  intro n
  induction n with
  | zero =>
    intro l f1 f2 hn _ _
    have hl : l = [] := List.eq_nil_of_length_eq_zero (Nat.le_zero.mp hn)
    subst hl
    cases f1 <;> cases f2 <;> rfl
  | succ n ih =>
    intro l f1 f2 hn h1 h2
    cases l with
    | nil => cases f1 <;> cases f2 <;> rfl
    | cons x xs =>
      cases f1 with
      | zero => simp at h1
      | succ g1 =>
        cases f2 with
        | zero => simp at h2
        | succ g2 =>
          simp only [chunksAux]
          congr 1
          apply ih <;>
            (simp only [List.length_drop, List.length_cons] at hn h1 h2 ⊢; omega)

/-- Unfolding rule for `chunks` on a non-empty list. -/
theorem chunks_cons {α : Type} (bs : Nat) (hbs : 1 ≤ bs) (l : List α) (hl : l ≠ []) :
    chunks bs l = l.take bs :: chunks bs (l.drop bs) := by
  cases l with
  | nil => exact absurd rfl hl
  | cons x xs =>
    show chunksAux bs ((x :: xs).length) (x :: xs) = _
    simp only [List.length_cons, chunksAux]
    congr 1
    apply chunksAux_fuel_irrel bs hbs ((x :: xs).drop bs).length
    · exact le_rfl
    · simp only [List.length_drop, List.length_cons]
      omega
    · exact le_rfl

/-- Chunking then flattening restores the input: slicing is contiguous and
order-preserving and drops nothing. -/
theorem chunks_flatten {α : Type} (bs : Nat) (hbs : 1 ≤ bs) :
    ∀ (n : Nat) (l : List α), l.length ≤ n → (chunks bs l).flatten = l := by
  intro n
  induction n with
  | zero =>
    intro l hn
    have hl : l = [] := List.eq_nil_of_length_eq_zero (Nat.le_zero.mp hn)
    subst hl
    rfl
  | succ n ih =>
    intro l hn
    by_cases hl : l = []
    · subst hl; rfl
    · rw [chunks_cons bs hbs l hl, List.flatten_cons,
        ih (l.drop bs) (by
          simp only [List.length_drop]
          have : 1 ≤ l.length := by
            cases l with
            | nil => exact absurd rfl hl
            | cons _ _ => simp
          omega),
        List.take_append_drop]

/-- Every chunk has at most `bs` elements. -/
theorem chunks_le {α : Type} (bs : Nat) (hbs : 1 ≤ bs) :
    ∀ (n : Nat) (l : List α), l.length ≤ n → ∀ b ∈ chunks bs l, b.length ≤ bs := by
  intro n
  induction n with
  | zero =>
    intro l hn b hb
    have hl : l = [] := List.eq_nil_of_length_eq_zero (Nat.le_zero.mp hn)
    subst hl
    simp [chunks, chunksAux] at hb
  | succ n ih =>
    intro l hn b hb
    by_cases hl : l = []
    · subst hl; simp [chunks, chunksAux] at hb
    · rw [chunks_cons bs hbs l hl] at hb
      rcases List.mem_cons.mp hb with h | h
      · subst h
        rw [List.length_take]
        omega
      · exact ih (l.drop bs) (by
          simp only [List.length_drop]
          have : 1 ≤ l.length := by
            cases l with
            | nil => exact absurd rfl hl
            | cons _ _ => simp
          omega) b h

/-- `buildMutation` always returns a non-empty string (both shapes start with
the text `mutation`), so the uploader's falsy-mutation guard is dead code. -/
theorem buildMutation_ne_empty (sch : Schema) (mn : String) (it : GType) (ty : SType)
    (data : List Record) : buildMutation sch mn it ty data ≠ "" := by
  unfold buildMutation
  split <;> intro h <;>
    (have h2 := congrArg String.data h
     rw [String.data_append] at h2
     simp at h2)

/-- The uploader's offset-based `while` loop computes exactly: fold the batch
sender over the contiguous chunks of the remaining records, then run the final
success check.  Holds whenever the fuel covers the remaining records. -/
theorem uploadLoop_eq_foldl (sch : Schema) (mn : String) (it : GType) (ty : SType)
    (data : List Record) (bs : Nat) (hbs : 1 ≤ bs) :
    ∀ (fuel offset : Nat) (st : UpState), 1 ≤ fuel → data.length + 1 ≤ offset + fuel →
      uploadLoop sch mn it ty data bs fuel offset st =
        finishUp ((chunks bs (data.drop offset)).foldl (sendBatch sch mn it ty) st) := by
  intro fuel
  induction fuel with
  | zero => intro offset st h1 _; omega
  | succ f ih =>
    intro offset st _ hle
    by_cases hof : offset < data.length
    · have hne := buildMutation_ne_empty sch mn it ty
        ((data.drop offset).take (min (offset + bs) data.length - offset))
      have hdne : data.drop offset ≠ [] := by
        intro h
        have := congrArg List.length h
        simp only [List.length_drop, List.length_nil] at this
        omega
      have hbatch : (data.drop offset).take (min (offset + bs) data.length - offset) =
          (data.drop offset).take bs := by
        rcases Nat.le_total (offset + bs) data.length with h | h
        · rw [Nat.min_eq_left h]
          congr 1
          omega
        · rw [Nat.min_eq_right h]
          rw [List.take_of_length_le (by simp only [List.length_drop]; omega),
            List.take_of_length_le (by simp only [List.length_drop]; omega)]
      rw [chunks_cons bs hbs _ hdne]
      simp only [uploadLoop, if_pos hof, if_neg hne, List.foldl_cons]
      rw [List.drop_drop]
      rw [ih (offset + bs) _ (by omega) (by omega)]
      congr 2
      · -- the loop body state equals `sendBatch st batch`
        simp only [sendBatch, hbatch]
    · simp only [uploadLoop, if_neg hof]
      have hdn : data.drop offset = [] := List.drop_eq_nil_of_le (by omega)
      rw [hdn]
      rfl

/-- Field-level effect of one `sendBatch` step. -/
theorem sendBatch_fields (sch : Schema) (mn : String) (it : GType) (ty : SType)
    (st : UpState) (b : List Record) :
    (sendBatch sch mn it ty st b).sent = st.sent ++ [b] ∧
    (sendBatch sch mn it ty st b).requests = st.requests ++ [buildMutation sch mn it ty b] ∧
    (sendBatch sch mn it ty st b).pendingOutcomes = st.pendingOutcomes.tail ∧
    (sendBatch sch mn it ty st b).mutationErrors = st.mutationErrors ∧
    (sendBatch sch mn it ty st b).completed = st.completed ∧
    (sendBatch sch mn it ty st b).succeedInc = st.succeedInc ∧
    (sendBatch sch mn it ty st b).uploadErrors = st.uploadErrors +
      (if isErrorOutcome
          (match st.pendingOutcomes with
           | [] => UploadOutcome.resultOk 0
           | o :: _ => o) then 1 else 0) := by
  cases hp : st.pendingOutcomes with
  | nil => simp [sendBatch, hp, applyOutcome, isErrorOutcome]
  | cons p ps => cases p <;> simp [sendBatch, hp, applyOutcome, isErrorOutcome]

/-- Field-level effect of folding `sendBatch` over a batch list: the batches
and their mutation texts are appended in order, no mutation errors arise, and
the upload-error counter counts exactly the error-classified outcomes among
the consumed responses. -/
theorem foldl_sendBatch_fields (sch : Schema) (mn : String) (it : GType) (ty : SType) :
    ∀ (bl : List (List Record)) (st : UpState),
      (bl.foldl (sendBatch sch mn it ty) st).sent = st.sent ++ bl ∧
      (bl.foldl (sendBatch sch mn it ty) st).requests =
        st.requests ++ bl.map (buildMutation sch mn it ty) ∧
      (bl.foldl (sendBatch sch mn it ty) st).mutationErrors = st.mutationErrors ∧
      (bl.foldl (sendBatch sch mn it ty) st).completed = st.completed ∧
      (bl.foldl (sendBatch sch mn it ty) st).succeedInc = st.succeedInc ∧
      (bl.foldl (sendBatch sch mn it ty) st).uploadErrors = st.uploadErrors +
        ((st.pendingOutcomes.take bl.length).countP fun o => isErrorOutcome o) := by
  intro bl
  induction bl with
  | nil => intro st; simp
  | cons b rest ih =>
    intro st
    obtain ⟨hs, hr, hp, hm, hc, hi, hu⟩ := sendBatch_fields sch mn it ty st b
    obtain ⟨is_, ir, im, ic, ii, iu⟩ := ih (sendBatch sch mn it ty st b)
    simp only [List.foldl_cons]
    refine ⟨?_, ?_, ?_, ?_, ?_, ?_⟩
    · rw [is_, hs]; simp
    · rw [ir, hr]; simp
    · rw [im, hm]
    · rw [ic, hc]
    · rw [ii, hi]
    · rw [iu, hu, hp]
      cases hpo : st.pendingOutcomes with
      | nil => simp [hpo, isErrorOutcome]
      | cons p ps =>
        simp only [hpo, List.tail_cons, List.length_cons, List.take_succ_cons,
          List.countP_cons]
        omega

/-- Field-level effect of the final success check. -/
theorem finishUp_fields (st : UpState) :
    (finishUp st).sent = st.sent ∧ (finishUp st).requests = st.requests ∧
    (finishUp st).uploadErrors = st.uploadErrors ∧
    (finishUp st).mutationErrors = st.mutationErrors ∧
    (finishUp st).completed = true ∧
    (finishUp st).succeedInc = (if st.uploadErrors = 0 then true else st.succeedInc) := by
  by_cases h : st.uploadErrors = 0 <;> simp [finishUp, h]

/-- The effective batch size is always positive. -/
theorem one_le_effBatch (b : Option Nat) : 1 ≤ effBatch b := by
  cases b with
  | none => simp [effBatch, DEFAULT_BATCH_SIZE]
  | some n =>
    by_cases h : n = 0 <;> simp [effBatch, h, DEFAULT_BATCH_SIZE] <;> omega

/-- A positive explicit batch size is used as given. -/
theorem effBatch_some_pos (bs : Nat) (h : 1 ≤ bs) : effBatch (some bs) = bs := by
  have : bs ≠ 0 := by omega
  simp [effBatch, this]

/-- `uploadViaMutation` equals the chunk-fold normal form. -/
theorem uploadRun_eq (sch : Schema) (mn : String) (it : GType) (ty : SType)
    (data : List Record) (bsArg : Option Nat) (outcomes : List UploadOutcome) :
    uploadRun sch mn it ty data bsArg outcomes =
      finishUp ((chunks (effBatch bsArg) data).foldl (sendBatch sch mn it ty)
        ⟨[], [], outcomes, 0, 0, false, false⟩) := by
  unfold uploadRun
  rw [uploadLoop_eq_foldl sch mn it ty data (effBatch bsArg) (one_le_effBatch bsArg)
    (data.length + 1) 0 _ (by omega) (by omega), List.drop_zero]

/-- Claim C6 — batch slicing: the uploader slices the records into
contiguous, order-preserving batches of at most `batchSize` (their
concatenation in send order is the input), and 2,500 records with
`batchSize = 1000` yield exactly 3 upload calls sized 1000, 1000 and 500, in
that order. -/
theorem C6_batch_slicing :
    (∀ (sch : Schema) (mn : String) (it : GType) (ty : SType) (data : List Record)
        (bs : Nat) (outcomes : List UploadOutcome), 1 ≤ bs →
        ((uploadRun sch mn it ty data (some bs) outcomes).sent.flatten = data ∧
          ∀ b ∈ (uploadRun sch mn it ty data (some bs) outcomes).sent, b.length ≤ bs)) ∧
    (∀ (sch : Schema) (mn : String) (it : GType) (ty : SType) (data : List Record)
        (outcomes : List UploadOutcome), data.length = 2500 →
        ((uploadRun sch mn it ty data (some 1000) outcomes).sent.map List.length =
            [1000, 1000, 500] ∧
          (uploadRun sch mn it ty data (some 1000) outcomes).requests.length = 3)) := by
  constructor
  · intro sch mn it ty data bs outcomes hbs
    rw [uploadRun_eq, effBatch_some_pos bs hbs]
    obtain ⟨hs, -, -, -, -, -⟩ :=
      foldl_sendBatch_fields sch mn it ty (chunks bs data) ⟨[], [], outcomes, 0, 0, false, false⟩
    obtain ⟨fs, -, -, -, -, -⟩ :=
      finishUp_fields ((chunks bs data).foldl (sendBatch sch mn it ty)
        ⟨[], [], outcomes, 0, 0, false, false⟩)
    rw [fs, hs]
    simp only [List.nil_append]
    exact ⟨chunks_flatten bs hbs data.length data le_rfl,
      chunks_le bs hbs data.length data le_rfl⟩
  · intro sch mn it ty data outcomes hdata
    have hch : chunks 1000 data =
        [data.take 1000, (data.drop 1000).take 1000, (data.drop 2000).take 1000] := by
      rw [chunks_cons 1000 (by omega) data
        (by intro h; rw [h] at hdata; simp at hdata)]
      rw [chunks_cons 1000 (by omega) (data.drop 1000)
        (by intro h
            have := congrArg List.length h
            simp only [List.length_drop, hdata, List.length_nil] at this
            omega)]
      rw [List.drop_drop]
      rw [chunks_cons 1000 (by omega) (data.drop (1000 + 1000))
        (by intro h
            have := congrArg List.length h
            simp only [List.length_drop, hdata, List.length_nil] at this
            omega)]
      rw [List.drop_drop]
      have hnil : data.drop (1000 + (1000 + 1000)) = [] :=
        List.drop_eq_nil_of_le (by omega)
      rw [hnil]
      norm_num [chunks, chunksAux]
    have heff : effBatch (some 1000) = 1000 := effBatch_some_pos 1000 (by omega)
    rw [uploadRun_eq, heff]
    obtain ⟨hs, hr, -, -, -, -⟩ :=
      foldl_sendBatch_fields sch mn it ty (chunks 1000 data) ⟨[], [], outcomes, 0, 0, false, false⟩
    obtain ⟨fs, fr, -, -, -, -⟩ :=
      finishUp_fields ((chunks 1000 data).foldl (sendBatch sch mn it ty)
        ⟨[], [], outcomes, 0, 0, false, false⟩)
    rw [fs, fr, hs, hr, hch]
    simp [List.length_take, List.length_drop, hdata]

/-- `flush` does not touch the error counter, dedupe table, entity counter,
error messages, or success flag. -/
theorem flushState_proj (st : ConvState) :
    (flushState st).errorCnt = st.errorCnt ∧ (flushState st).dedupe = st.dedupe ∧
    (flushState st).entityCnt = st.entityCnt ∧ (flushState st).ndfErrors = st.ndfErrors ∧
    (flushState st).succeedInc = st.succeedInc := by
  unfold flushState
  split
  · exact ⟨rfl, rfl, rfl, rfl, rfl⟩
  · dsimp only
    split <;> split <;> split <;> exact ⟨rfl, rfl, rfl, rfl, rfl⟩

/-- Claim C9 — file-success criterion.  NDF path: a completed conversion
increments the success count exactly when its error counter is zero after the
final flush.  Upload path: the success count is incremented exactly when no
batch of the file recorded an upload error; the loop always runs to
completion, and the upload-error counter counts exactly the error-classified
responses (a response with an `errors` list or a thrown exception) among the
consumed batch responses. -/
theorem C9_file_success :
    (∀ (sch : Schema) (tyName : String) (fe : Nat) (data : List Record) (st : ConvState),
        convertRun sch tyName fe data = .ok st → (st.succeedInc = true ↔ st.errorCnt = 0)) ∧
    (∀ (sch : Schema) (mn : String) (it : GType) (ty : SType) (data : List Record)
        (bsArg : Option Nat) (outcomes : List UploadOutcome),
        ((uploadRun sch mn it ty data bsArg outcomes).succeedInc = true ↔
          (uploadRun sch mn it ty data bsArg outcomes).uploadErrors = 0) ∧
        (uploadRun sch mn it ty data bsArg outcomes).completed = true ∧
        (uploadRun sch mn it ty data bsArg outcomes).uploadErrors =
          (outcomes.take (chunks (effBatch bsArg) data).length).countP
            (fun o => isErrorOutcome o)) := by
  constructor
  · intro sch tyName fe data st h
    unfold convertRun at h
    cases hT : getType sch tyName <;> rw [hT] at h <;> dsimp only at h
    · simp at h
    case some baseType =>
      cases hF : getField sch baseType "id" <;> rw [hF] at h <;> dsimp only at h
      · simp at h
      case some fi =>
        simp only [bind, Except.bind] at h
        cases hR : data.foldlM (processEntity sch baseType tyName fe) initConvState <;>
          rw [hR] at h
        · simp at h
        case ok fin =>
          simp only [Except.ok.injEq] at h
          obtain ⟨he, -, -, -, -⟩ := flushState_proj fin
          rw [← h]
          dsimp only
          rw [he]
          constructor
          · intro hb
            simpa using hb
          · intro hz
            simp [hz]
  · intro sch mn it ty data bsArg outcomes
    rw [uploadRun_eq]
    obtain ⟨-, -, -, -, hsi, hu⟩ :=
      foldl_sendBatch_fields sch mn it ty (chunks (effBatch bsArg) data)
        ⟨[], [], outcomes, 0, 0, false, false⟩
    obtain ⟨-, -, fu, -, fc, fi⟩ :=
      finishUp_fields ((chunks (effBatch bsArg) data).foldl (sendBatch sch mn it ty)
        ⟨[], [], outcomes, 0, 0, false, false⟩)
    dsimp only at hu hsi
    rw [Nat.zero_add] at hu
    refine ⟨?_, fc, by rw [fu, hu]⟩
    rw [fi, fu, hu, hsi]
    by_cases hz : ((outcomes.take (chunks (effBatch bsArg) data).length).countP
        (fun o => isErrorOutcome o)) = 0
    · simp [hz]
    · simp [hz]

/-- Witness for C6 at concrete inputs: 5 records in batches of 2 concatenate
back to the input, and 2,500 records with batch size 1000 are sent as three
calls sized 1000, 1000, 500. -/
theorem C6_batch_slicing_witness :
    ((uploadRun schemaEmpty "m" (.named "E") tyEmpty (emptyRecords 5) (some 2) []).sent.flatten =
        emptyRecords 5) ∧
    ((uploadRun schemaEmpty "m" (.named "E") tyEmpty (emptyRecords 2500) (some 1000) []).sent.map
        List.length = [1000, 1000, 500]) :=
  ⟨(C6_batch_slicing.1 schemaEmpty "m" (.named "E") tyEmpty (emptyRecords 5) 2 []
      (by decide)).1,
   (C6_batch_slicing.2 schemaEmpty "m" (.named "E") tyEmpty (emptyRecords 2500) []
      (show (List.replicate 2500 ([] : Record)).length = 2500 from
        List.length_replicate 2500 [])).1⟩

/-- Witness for C9 at a concrete input: converting one valid record yields
the state below, and the theorem ties its success flag to its zero error
counter. -/
theorem C9_file_success_witness :
    (ConvState.mk [] [] [] [("00001", [⟨"T", JValue.str "a", []⟩])] [] [] 1 1
        [("a", JValue.str "a")] 1 0 [] true).succeedInc = true ↔
    (ConvState.mk [] [] [] [("00001", [⟨"T", JValue.str "a", []⟩])] [] [] 1 1
        [("a", JValue.str "a")] 1 0 [] true).errorCnt = 0 :=
  C9_file_success.1 schemaIdOnly "T" 10000 [[("id", .str "a")]] _ rfl

/-- Claim C5 fails on the code: for the record `{tags:["a","b"]}` against the
non-list field `tags`, the per-row `try`/`catch` inside `buildMutation`
swallows the shape-mismatch throw, the batch renders as the aliased selection
`m0: addTs(input:undefined)`, one network request IS issued for the batch, no
mutation error is recorded, and the file is even counted as succeeded.  (The
`try`/`catch` around `buildMutation` in `uploadViaMutation`, which would
record the mutation error and abort, is unreachable for this input.) -/
theorem C5_shape_mismatch_request_sent :
    (uploadRun schemaTagsScalar "addTs" (.named "TInput") tyTagsScalar [rowTagsArr]
        none []).requests = ["mutation \x7b m0: addTs(input:undefined) \x7d"] ∧
    (uploadRun schemaTagsScalar "addTs" (.named "TInput") tyTagsScalar [rowTagsArr]
        none []).sent = [[rowTagsArr]] ∧
    (uploadRun schemaTagsScalar "addTs" (.named "TInput") tyTagsScalar [rowTagsArr]
        none []).mutationErrors = 0 ∧
    (uploadRun schemaTagsScalar "addTs" (.named "TInput") tyTagsScalar [rowTagsArr]
        none []).uploadErrors = 0 ∧
    (uploadRun schemaTagsScalar "addTs" (.named "TInput") tyTagsScalar [rowTagsArr]
        none []).succeedInc = true :=
  ⟨rfl, rfl, rfl, rfl, rfl⟩

/-! ## Theorems: NDF completeness (C1) -/

/-- A field is in no category exactly when all three category tests fail. -/
theorem catCount_eq_zero (acc : ClassAcc) (f : String) : catCount acc f = 0 ↔
    inNodeCat acc f = false ∧ inListCat acc f = false ∧ inRelCat acc f = false := by
  unfold catCount
  by_cases h1 : inNodeCat acc f <;> by_cases h2 : inListCat acc f <;>
    by_cases h3 : inRelCat acc f <;> simp [h1, h2, h3]

/-- Prepending a node value under a different field name leaves a field's
category count unchanged. -/
theorem catCount_node_ne (f0 : String) (val : JValue) (nv lv : List (String × JValue))
    (rv : List (String × RelVal)) (f : String) (hne : f0 ≠ f) :
    catCount ⟨(f0, val) :: nv, lv, rv⟩ f = catCount ⟨nv, lv, rv⟩ f := by
  have hbe : (((f0, val) : String × JValue).1 == f) = false := beq_eq_false_iff_ne.mpr hne
  have hbe2 : (f0 == f) = false := beq_eq_false_iff_ne.mpr hne
  simp [catCount, inNodeCat, inListCat, inRelCat, List.any_cons, hbe, hbe2]

/-- Prepending a list value under a different field name leaves a field's
category count unchanged. -/
theorem catCount_list_ne (f0 : String) (val : JValue) (nv lv : List (String × JValue))
    (rv : List (String × RelVal)) (f : String) (hne : f0 ≠ f) :
    catCount ⟨nv, (f0, val) :: lv, rv⟩ f = catCount ⟨nv, lv, rv⟩ f := by
  have hbe : (((f0, val) : String × JValue).1 == f) = false := beq_eq_false_iff_ne.mpr hne
  have hbe2 : (f0 == f) = false := beq_eq_false_iff_ne.mpr hne
  simp [catCount, inNodeCat, inListCat, inRelCat, List.any_cons, hbe, hbe2]

/-- Prepending a relation value under a different field name leaves a field's
category count unchanged. -/
theorem catCount_rel_ne (f0 : String) (rv0 : RelVal) (nv lv : List (String × JValue))
    (rv : List (String × RelVal)) (f : String) (hne : f0 ≠ f) :
    catCount ⟨nv, lv, (f0, rv0) :: rv⟩ f = catCount ⟨nv, lv, rv⟩ f := by
  have hbe : (((f0, rv0) : String × RelVal).1 == f) = false := beq_eq_false_iff_ne.mpr hne
  have hbe2 : (f0 == f) = false := beq_eq_false_iff_ne.mpr hne
  simp [catCount, inNodeCat, inListCat, inRelCat, List.any_cons, hbe, hbe2]

/-- A freshly prepended node value puts its field in exactly one category. -/
theorem catCount_node_self (f0 : String) (val : JValue) (nv lv : List (String × JValue))
    (rv : List (String × RelVal)) (h : catCount ⟨nv, lv, rv⟩ f0 = 0) :
    catCount ⟨(f0, val) :: nv, lv, rv⟩ f0 = 1 := by
  obtain ⟨h1, h2, h3⟩ := (catCount_eq_zero _ f0).mp h
  simp only [inNodeCat, inListCat, inRelCat] at h1 h2 h3
  have hbe : (((f0, val) : String × JValue).1 == f0) = true := beq_self_eq_true f0
  have hbe2 : (f0 == f0) = true := beq_self_eq_true f0
  simp [catCount, inNodeCat, inListCat, inRelCat, List.any_cons, h1, h2, h3, hbe, hbe2]

/-- A freshly prepended list value puts its field in exactly one category. -/
theorem catCount_list_self (f0 : String) (val : JValue) (nv lv : List (String × JValue))
    (rv : List (String × RelVal)) (h : catCount ⟨nv, lv, rv⟩ f0 = 0) :
    catCount ⟨nv, (f0, val) :: lv, rv⟩ f0 = 1 := by
  obtain ⟨h1, h2, h3⟩ := (catCount_eq_zero _ f0).mp h
  simp only [inNodeCat, inListCat, inRelCat] at h1 h2 h3
  have hbe : (((f0, val) : String × JValue).1 == f0) = true := beq_self_eq_true f0
  have hbe2 : (f0 == f0) = true := beq_self_eq_true f0
  simp [catCount, inNodeCat, inListCat, inRelCat, List.any_cons, h1, h2, h3, hbe, hbe2]

/-- A freshly prepended relation value puts its field in one category when it
has targets, and in none when its target list is empty. -/
theorem catCount_rel_self (f0 : String) (rv0 : RelVal) (nv lv : List (String × JValue))
    (rv : List (String × RelVal)) (h : catCount ⟨nv, lv, rv⟩ f0 = 0) :
    catCount ⟨nv, lv, (f0, rv0) :: rv⟩ f0 = (if rv0.toIds.isEmpty then 0 else 1) := by
  obtain ⟨h1, h2, h3⟩ := (catCount_eq_zero _ f0).mp h
  simp only [inNodeCat, inListCat, inRelCat] at h1 h2 h3
  have hbe : (((f0, rv0) : String × RelVal).1 == f0) = true := beq_self_eq_true f0
  have hbe2 : (f0 == f0) = true := beq_self_eq_true f0
  by_cases he : rv0.toIds.isEmpty <;>
    simp [catCount, inNodeCat, inListCat, inRelCat, List.any_cons, h1, h2, h3, hbe, hbe2, he]

/-- Main induction for NDF completeness: for a duplicate-free field list that
classifies successfully, every listed field lands in exactly one emitted
category unless it is dropped (null-valued scalar, or object-list with no
targets), and unlisted fields are in no category. -/
theorem classifyFields_count (sch : Schema) (ty : SType) :
    ∀ (fields : List (String × JValue)) (acc : ClassAcc),
      (fields.map Prod.fst).Nodup →
      classifyFields sch ty fields = .ok acc →
      ((∀ f v, (f, v) ∈ fields →
          ∃ info, getField sch ty f = some info ∧
            catCount acc f = (if fieldDropped info v then 0 else 1)) ∧
        (∀ f, f ∉ fields.map Prod.fst → catCount acc f = 0)) := by
  intro fields
  induction fields with
  | nil =>
    intro acc _ hok
    simp only [classifyFields, Except.ok.injEq] at hok
    refine ⟨fun f v hm => absurd hm (by simp), fun f _ => ?_⟩
    rw [← hok]
    simp [catCount, inNodeCat, inListCat, inRelCat]
  | cons hd rest ih =>
    obtain ⟨f0, v0⟩ := hd
    intro acc hnd hok
    have hnd0 : f0 ∉ rest.map Prod.fst := by
      simp only [List.map_cons, List.nodup_cons] at hnd
      exact hnd.1
    have hndr : (rest.map Prod.fst).Nodup := by
      simp only [List.map_cons, List.nodup_cons] at hnd
      exact hnd.2
    cases hR : classifyFields sch ty rest with
    | error e =>
      rw [show classifyFields sch ty ((f0, v0) :: rest) =
          Except.bind (classifyFields sch ty rest) _ from rfl, hR] at hok
      simp [Except.bind] at hok
    | ok acc' =>
      obtain ⟨ihm, ihf⟩ := ih acc' hndr hR
      have hfresh : catCount acc' f0 = 0 := ihf f0 hnd0
      obtain ⟨nv', lv', rv'⟩ := acc'
      simp only [classifyFields, hR, bind, Except.bind] at hok
      cases hg : getField sch ty f0 with
      | none => rw [hg] at hok; simp at hok
      | some info =>
        rw [hg] at hok
        dsimp only at hok
        by_cases hl : info.isList
        · by_cases ho : info.isObject
          · -- object list: one relation per target id
            rw [if_pos hl, if_pos ho] at hok
            cases v0 with
            | arr xs =>
              simp only [Except.ok.injEq] at hok
              subst hok
              constructor
              · intro f v hm
                rcases List.mem_cons.mp hm with heq | hmr
                · have hf0 : f = f0 := congrArg Prod.fst heq
                  have hv0 : v = JValue.arr xs := congrArg Prod.snd heq
                  subst hf0
                  subst hv0
                  refine ⟨info, hg, ?_⟩
                  rw [catCount_rel_self f _ nv' lv' rv' hfresh]
                  rw [show fieldDropped info (JValue.arr xs) = xs.isEmpty by
                    simp [fieldDropped, hl, ho]]
                  have hmape : (xs.map mkNdfIdJ).isEmpty = xs.isEmpty := by
                    cases xs <;> rfl
                  dsimp only
                  rw [hmape]
                · obtain ⟨info', hgi, hci⟩ := ihm f v hmr
                  have hfne : f0 ≠ f := by
                    intro hEq
                    exact hnd0 (hEq ▸ (List.mem_map.mpr ⟨(f, v), hmr, rfl⟩))
                  exact ⟨info', hgi,
                    by rw [catCount_rel_ne f0 _ nv' lv' rv' f hfne]; exact hci⟩
              · intro f hf
                have hfne : f0 ≠ f := by
                  intro hEq
                  exact hf (hEq ▸ List.mem_cons_self _ _)
                rw [catCount_rel_ne f0 _ nv' lv' rv' f hfne]
                exact ihf f (fun hmem => hf (List.mem_cons_of_mem _ hmem))
            | null => exact Except.noConfusion hok
            | bool b => exact Except.noConfusion hok
            | num q => exact Except.noConfusion hok
            | str s => exact Except.noConfusion hok
          · -- scalar list
            rw [if_pos hl, if_neg ho] at hok
            simp only [Except.ok.injEq] at hok
            subst hok
            constructor
            · intro f v hm
              rcases List.mem_cons.mp hm with heq | hmr
              · have hf0 : f = f0 := congrArg Prod.fst heq
                have hv0 : v = v0 := congrArg Prod.snd heq
                subst hf0
                subst hv0
                refine ⟨info, hg, ?_⟩
                rw [show fieldDropped info v = false by simp [fieldDropped, hl, ho]]
                simp only [Bool.false_eq_true, if_false]
                exact catCount_list_self f _ nv' lv' rv' hfresh
              · obtain ⟨info', hgi, hci⟩ := ihm f v hmr
                have hfne : f0 ≠ f := by
                  intro hEq
                  exact hnd0 (hEq ▸ (List.mem_map.mpr ⟨(f, v), hmr, rfl⟩))
                exact ⟨info', hgi,
                  by rw [catCount_list_ne f0 _ nv' lv' rv' f hfne]; exact hci⟩
            · intro f hf
              have hfne : f0 ≠ f := by
                intro hEq
                exact hf (hEq ▸ List.mem_cons_self _ _)
              rw [catCount_list_ne f0 _ nv' lv' rv' f hfne]
              exact ihf f (fun hmem => hf (List.mem_cons_of_mem _ hmem))
        · by_cases ho : info.isObject
          · -- single relation (one target)
            rw [if_neg hl, if_pos ho] at hok
            simp only [Except.ok.injEq] at hok
            subst hok
            constructor
            · intro f v hm
              rcases List.mem_cons.mp hm with heq | hmr
              · have hf0 : f = f0 := congrArg Prod.fst heq
                have hv0 : v = v0 := congrArg Prod.snd heq
                subst hf0
                subst hv0
                refine ⟨info, hg, ?_⟩
                rw [show fieldDropped info v = false by simp [fieldDropped, hl, ho]]
                simp only [Bool.false_eq_true, if_false]
                rw [catCount_rel_self f _ nv' lv' rv' hfresh]
                rfl
              · obtain ⟨info', hgi, hci⟩ := ihm f v hmr
                have hfne : f0 ≠ f := by
                  intro hEq
                  exact hnd0 (hEq ▸ (List.mem_map.mpr ⟨(f, v), hmr, rfl⟩))
                exact ⟨info', hgi,
                  by rw [catCount_rel_ne f0 _ nv' lv' rv' f hfne]; exact hci⟩
            · intro f hf
              have hfne : f0 ≠ f := by
                intro hEq
                exact hf (hEq ▸ List.mem_cons_self _ _)
              rw [catCount_rel_ne f0 _ nv' lv' rv' f hfne]
              exact ihf f (fun hmem => hf (List.mem_cons_of_mem _ hmem))
          · -- plain scalar
            rw [if_neg hl, if_neg ho] at hok
            cases hc : scalarNdfValue info v0 with
            | error e =>
              rw [hc] at hok
              exact Except.noConfusion hok
            | ok value =>
              rw [hc] at hok
              dsimp only at hok
              by_cases hn : jsIsNull value
              · rw [if_pos hn] at hok
                simp only [Except.ok.injEq] at hok
                subst hok
                constructor
                · intro f v hm
                  rcases List.mem_cons.mp hm with heq | hmr
                  · have hf0 : f = f0 := congrArg Prod.fst heq
                    have hv0 : v = v0 := congrArg Prod.snd heq
                    subst hf0
                    subst hv0
                    refine ⟨info, hg, ?_⟩
                    rw [show fieldDropped info v = true by
                      simp [fieldDropped, hl, ho, hc, hn]]
                    simp only [if_true]
                    exact hfresh
                  · exact ihm f v hmr
                · intro f hf
                  exact ihf f (fun hmem => hf (List.mem_cons_of_mem _ hmem))
              · rw [if_neg hn] at hok
                simp only [Except.ok.injEq] at hok
                subst hok
                constructor
                · intro f v hm
                  rcases List.mem_cons.mp hm with heq | hmr
                  · have hf0 : f = f0 := congrArg Prod.fst heq
                    have hv0 : v = v0 := congrArg Prod.snd heq
                    subst hf0
                    subst hv0
                    refine ⟨info, hg, ?_⟩
                    rw [show fieldDropped info v = false by
                      simp [fieldDropped, hl, ho, hc, hn]]
                    simp only [Bool.false_eq_true, if_false]
                    exact catCount_node_self f _ nv' lv' rv' hfresh
                  · obtain ⟨info', hgi, hci⟩ := ihm f v hmr
                    have hfne : f0 ≠ f := by
                      intro hEq
                      exact hnd0 (hEq ▸ (List.mem_map.mpr ⟨(f, v), hmr, rfl⟩))
                    exact ⟨info', hgi,
                      by rw [catCount_node_ne f0 _ nv' lv' rv' f hfne]; exact hci⟩
                · intro f hf
                  have hfne : f0 ≠ f := by
                    intro hEq
                    exact hf (hEq ▸ List.mem_cons_self _ _)
                  rw [catCount_node_ne f0 _ nv' lv' rv' f hfne]
                  exact ihf f (fun hmem => hf (List.mem_cons_of_mem _ hmem))

/-- Counterexample to claim C1 as stated: the record
`{id:"a", x:"abc"}` against schema field `x: Int` classifies successfully
(the whole conversion run finishes with zero errors and reports success), yet
the non-id field `x` appears in none of the emitted node/list/relation
entries — it is dropped, because its unparsable value coerces to `null`. -/
theorem C1_ndf_completeness_counterexample :
    classifyEntity schemaWithInt tyWithInt entWithBadInt = .ok ⟨[], [], []⟩ ∧
    ("x", JValue.str "abc") ∈ entWithBadInt ∧ "x" ≠ "id" ∧
    catCount ⟨[], [], []⟩ "x" = 0 ∧
    (convertRun schemaWithInt "T" 0 [entWithBadInt]).map
      (fun st => (st.errorCnt, st.succeedInc,
        (filesJoin st.writtenNodes).map (fun e => (e.typeName, e.id, e.fields)),
        filesJoin st.writtenLists ++ st.lists,
        (filesJoin st.writtenRels ++ st.relations).length)) =
      .ok (0, true, [("T", .str "a", [])], [], 0) :=
  ⟨rfl, by simp [entWithBadInt], by simp, rfl, rfl⟩

/-- Claim C1, amended: for every record with duplicate-free field names that
is successfully classified, every non-id field appears in **at most** one of
the emitted node/list/relation categories, and in exactly one unless the
code drops it — which happens exactly when the field is a non-list,
non-object field whose normalized/coerced value is `null`, or an object-list
field whose value is the empty array.  (The original claim's "no field is
dropped" fails; see the counterexample.) -/
theorem C1_ndf_completeness_amended (sch : Schema) (ty : SType) (entity : Record)
    (acc : ClassAcc) (hnd : (entity.map Prod.fst).Nodup)
    (hok : classifyEntity sch ty entity = .ok acc) :
    ∀ f v, (f, v) ∈ entity → f ≠ "id" →
      ∃ info, getField sch ty f = some info ∧
        catCount acc f = (if fieldDropped info v then 0 else 1) := by
  intro f v hm hne
  have hsub : List.Sublist ((entity.filter (fun kv => !(kv.1 == "id"))).map Prod.fst)
      (entity.map Prod.fst) :=
    List.Sublist.map Prod.fst (List.filter_sublist entity)
  have hnd' : ((entity.filter (fun kv => !(kv.1 == "id"))).map Prod.fst).Nodup :=
    List.Nodup.sublist hsub hnd
  have hm' : (f, v) ∈ entity.filter (fun kv => !(kv.1 == "id")) := by
    rw [List.mem_filter]
    exact ⟨hm, by simp [hne]⟩
  exact (classifyFields_count sch ty _ acc hnd' hok).1 f v hm'

/-- Witness for the amended C1 at a concrete input: in
`{id:"a", s:"hello"}` against `s: String`, the field `s` is not dropped and
appears in exactly one category. -/
theorem C1_ndf_completeness_amended_witness :
    ∃ info, getField schemaWithStr tyWithStr "s" = some info ∧
      catCount ⟨[("s", JValue.str "hello")], [], []⟩ "s" =
        (if fieldDropped info (JValue.str "hello") then 0 else 1) :=
  C1_ndf_completeness_amended schemaWithStr tyWithStr
    [("id", JValue.str "a"), ("s", JValue.str "hello")]
    ⟨[("s", JValue.str "hello")], [], []⟩ (by decide) rfl
    "s" (JValue.str "hello")
    (List.mem_cons_of_mem _ (List.mem_cons_self _ _)) (by decide)

/-! ## Theorems: coercion idempotence (C8) -/

/-- Formatting then reading one decimal digit is the identity. -/
theorem digVal_digChar (n : Nat) : digVal (digChar n) = some (n % 10) := by
  have h : n % 10 < 10 := Nat.mod_lt _ (by norm_num)
  unfold digChar
  generalize hk : n % 10 = k
  rw [hk] at h
  interval_cases k <;> rfl

/-- A successfully read digit is at most 9. -/
theorem digVal_le (c : Char) (d : Nat) (h : digVal c = some d) : d ≤ 9 := by
  unfold digVal at h
  split at h
  · rename_i hcond
    simp only [Option.some.injEq] at h
    omega
  · exact absurd h (by simp)

/-- Reading back a two-digit rendering. -/
theorem read2_pad2 (n : Nat) (rest : List Char) :
    read2 (pad2 n ++ rest) = some (n % 100, rest) := by
  show read2 (digChar (n / 10 % 10) :: digChar (n % 10) :: rest) = _
  simp [read2, digVal_digChar]
  omega

/-- Reading back a three-digit rendering. -/
theorem read3_pad3 (n : Nat) (rest : List Char) :
    read3 (pad3 n ++ rest) = some (n % 1000, rest) := by
  show read3 (digChar (n / 100 % 10) :: digChar (n / 10 % 10) :: digChar (n % 10) :: rest) = _
  simp [read3, digVal_digChar]
  omega

/-- Reading back a four-digit rendering. -/
theorem read4_pad4 (n : Nat) (rest : List Char) :
    read4 (pad4 n ++ rest) = some (n % 10000, rest) := by
  show read4 (digChar (n / 1000 % 10) :: digChar (n / 100 % 10) ::
    digChar (n / 10 % 10) :: digChar (n % 10) :: rest) = _
  simp [read4, digVal_digChar]
  omega

/-- A four-digit read is bounded by 9999. -/
theorem read4_le (cs : List Char) (n : Nat) (rest : List Char)
    (h : read4 cs = some (n, rest)) : n ≤ 9999 := by
  unfold read4 at h
  split at h
  case _ a b c d rest' =>
    simp only [bind, Option.bind_eq_some] at h
    obtain ⟨x, hx, y, hy, z, hz, w, hw, hfin⟩ := h
    have := digVal_le a x hx
    have := digVal_le b y hy
    have := digVal_le c z hz
    have := digVal_le d w hw
    simp only [Option.some.injEq, Prod.mk.injEq] at hfin
    omega
  · exact absurd h (by simp)

/-- Two-digit read with nothing following. -/
theorem read2_pad2_nil (n : Nat) : read2 (pad2 n) = some (n % 100, []) := by
  have h := read2_pad2 n []
  rw [List.append_nil] at h
  exact h

/-- The year read by `readYmd` fits in four digits. -/
theorem readYmd_year_le (cs : List Char) (y mo d : Nat) (rest : List Char)
    (h : readYmd cs = some (y, mo, d, rest)) : y ≤ 9999 := by
  unfold readYmd at h
  simp only [bind, Option.bind_eq_some] at h
  obtain ⟨⟨y1, cs1⟩, h1, h⟩ := h
  dsimp only at h
  obtain ⟨cs2, h2, h⟩ := h
  obtain ⟨⟨mo1, cs3⟩, h3, h⟩ := h
  dsimp only at h
  obtain ⟨cs4, h4, h⟩ := h
  obtain ⟨⟨d1, cs5⟩, h5, h⟩ := h
  dsimp only at h
  simp only [Option.some.injEq, Prod.mk.injEq] at h
  obtain ⟨hy, -, -, -⟩ := h
  exact hy ▸ read4_le cs y1 cs1 h1

/-- Every date-time produced by the `YYYY-MM-DD` parser is in range. -/
theorem parseYmd_valid (cs : List Char) (dt : DateTime)
    (h : parseYmdChars cs = some dt) : validDTFull dt := by
  unfold parseYmdChars at h
  simp only [bind, Option.bind_eq_some] at h
  obtain ⟨⟨y, mo, d, rest⟩, hr, h⟩ := h
  dsimp only at h
  split at h
  case isTrue hcond =>
    simp only [Option.some.injEq] at h
    have hy := readYmd_year_le cs y mo d rest hr
    obtain ⟨-, hv⟩ := hcond
    simp only [validDT, Bool.and_eq_true, decide_eq_true_eq] at hv
    subst h
    unfold validDTFull
    dsimp only
    omega
  case isFalse => exact absurd h (by simp)

/-- Every date-time produced by the ISO parser is in range. -/
theorem parseIso_valid (cs : List Char) (dt : DateTime)
    (h : parseIsoChars cs = some dt) : validDTFull dt := by
  unfold parseIsoChars at h
  simp only [bind, Option.bind_eq_some] at h
  obtain ⟨⟨y, mo, d, cs1⟩, hr, h⟩ := h
  dsimp only at h
  obtain ⟨cs2, -, h⟩ := h
  obtain ⟨⟨hh, cs3⟩, -, h⟩ := h
  dsimp only at h
  obtain ⟨cs4, -, h⟩ := h
  obtain ⟨⟨mi, cs5⟩, -, h⟩ := h
  dsimp only at h
  obtain ⟨cs6, -, h⟩ := h
  obtain ⟨⟨ss, cs7⟩, -, h⟩ := h
  dsimp only at h
  obtain ⟨cs8, -, h⟩ := h
  obtain ⟨⟨ms, cs9⟩, -, h⟩ := h
  dsimp only at h
  obtain ⟨cs10, -, h⟩ := h
  split at h
  case isTrue hcond =>
    simp only [Option.some.injEq] at h
    have hy := readYmd_year_le cs y mo d cs1 hr
    obtain ⟨-, hv⟩ := hcond
    simp only [validDT, Bool.and_eq_true, decide_eq_true_eq] at hv
    subst h
    unfold validDTFull
    dsimp only
    omega
  case isFalse => exact absurd h (by simp)

/-- An in-range date-time survives the `YYYY-MM-DD` format/parse roundtrip as
its midnight truncation. -/
theorem parseYmd_roundtrip (dt : DateTime) (h : validDTFull dt) :
    parseYmdChars (ymdChars dt) = some ⟨dt.year, dt.month, dt.day, 0, 0, 0, 0⟩ := by
  obtain ⟨h1, h2, h3, h4, h5, -, -, -, -⟩ := h
  have hmody : dt.year % 10000 = dt.year := Nat.mod_eq_of_lt (by omega)
  have hmodm : dt.month % 100 = dt.month := Nat.mod_eq_of_lt (by omega)
  have hmodd : dt.day % 100 = dt.day := Nat.mod_eq_of_lt (by omega)
  have hval : validDT dt.year dt.month dt.day 0 0 0 0 = true := by
    simp only [validDT, Bool.and_eq_true, decide_eq_true_eq]
    omega
  simp [parseYmdChars, readYmd, ymdChars, read4_pad4, read2_pad2, read2_pad2_nil,
    expectChar, hmody, hmodm, hmodd, hval]

/-- The ISO parser rejects a plain `YYYY-MM-DD` rendering (too short). -/
theorem parseIso_ymdChars (dt : DateTime) : parseIsoChars (ymdChars dt) = none := by
  simp [parseIsoChars, readYmd, ymdChars, read4_pad4, read2_pad2, read2_pad2_nil,
    expectChar]

/-- The `YYYY-MM-DD` parser rejects an ISO rendering (trailing time part). -/
theorem parseYmd_isoChars (dt : DateTime) : parseYmdChars (isoChars dt) = none := by
  simp [parseYmdChars, readYmd, isoChars, read4_pad4, read2_pad2, expectChar]

/-- An in-range date-time survives the ISO format/parse roundtrip exactly. -/
theorem parseIso_roundtrip (dt : DateTime) (h : validDTFull dt) :
    parseIsoChars (isoChars dt) = some dt := by
  obtain ⟨h1, h2, h3, h4, h5, h6, h7, h8, h9⟩ := h
  have hmody : dt.year % 10000 = dt.year := Nat.mod_eq_of_lt (by omega)
  have hmodm : dt.month % 100 = dt.month := Nat.mod_eq_of_lt (by omega)
  have hmodd : dt.day % 100 = dt.day := Nat.mod_eq_of_lt (by omega)
  have hmodh : dt.hour % 100 = dt.hour := Nat.mod_eq_of_lt (by omega)
  have hmodmi : dt.minute % 100 = dt.minute := Nat.mod_eq_of_lt (by omega)
  have hmods : dt.second % 100 = dt.second := Nat.mod_eq_of_lt (by omega)
  have hmodms : dt.millis % 1000 = dt.millis := Nat.mod_eq_of_lt (by omega)
  have hval : validDT dt.year dt.month dt.day dt.hour dt.minute dt.second dt.millis = true := by
    simp only [validDT, Bool.and_eq_true, decide_eq_true_eq]
    omega
  simp [parseIsoChars, readYmd, isoChars, read4_pad4, read2_pad2, read3_pad3,
    expectChar, hmody, hmodm, hmodd, hmodh, hmodmi, hmods, hmodms, hval]

/-- Any date-time `moment` accepts (in the modelled formats) is in range. -/
theorem momentParse_valid (s : String) (dt : DateTime)
    (h : momentParse (.str s) = some dt) : validDTFull dt := by
  unfold momentParse at h
  dsimp only at h
  cases hy : parseYmdChars s.data with
  | some d0 =>
    rw [hy] at h
    simp only [Option.some.injEq] at h
    exact h ▸ parseYmd_valid s.data d0 hy
  | none =>
    rw [hy] at h
    exact parseIso_valid s.data dt h

/-- `moment` reparses its own ISO rendering to the same date-time. -/
theorem momentParse_iso (dt : DateTime) (h : validDTFull dt) :
    momentParse (.str (toIsoString dt)) = some dt := by
  show (match parseYmdChars (isoChars dt) with
    | some d0 => some d0
    | none => parseIsoChars (isoChars dt)) = some dt
  rw [parseYmd_isoChars, parseIso_roundtrip dt h]

/-- `moment` reparses its own `YYYY-MM-DD` rendering to midnight of the same
day. -/
theorem momentParse_ymd (dt : DateTime) (h : validDTFull dt) :
    momentParse (.str (toYmdString dt)) =
      some ⟨dt.year, dt.month, dt.day, 0, 0, 0, 0⟩ := by
  show (match parseYmdChars (ymdChars dt) with
    | some d0 => some d0
    | none => parseIsoChars (ymdChars dt)) = some _
  rw [parseYmd_roundtrip dt h]

/-- An ISO rendering is never the empty string. -/
theorem toIsoString_ne_empty (dt : DateTime) : toIsoString dt ≠ "" := by
  intro hc
  have h2 := congrArg String.data hc
  simp [toIsoString, isoChars, pad4] at h2

/-- A `YYYY-MM-DD` rendering is never the empty string. -/
theorem toYmdString_ne_empty (dt : DateTime) : toYmdString dt ≠ "" := by
  intro hc
  have h2 := congrArg String.data hc
  simp [toYmdString, ymdChars, pad4] at h2

/-- The midnight truncation of an in-range date-time is in range. -/
theorem validDTFull_midnight (dt : DateTime) (h : validDTFull dt) :
    validDTFull ⟨dt.year, dt.month, dt.day, 0, 0, 0, 0⟩ := by
  obtain ⟨h1, h2, h3, h4, h5, -, -, -, -⟩ := h
  unfold validDTFull
  dsimp only
  omega

/-- `moment` only accepts strings in the modelled domain. -/
theorem momentParse_valid_any (val : JValue) (dt : DateTime)
    (h : momentParse val = some dt) : validDTFull dt := by
  cases val with
  | str s => exact momentParse_valid s dt h
  | null => exact absurd h (by simp [momentParse])
  | bool b => exact absurd h (by simp [momentParse])
  | num q => exact absurd h (by simp [momentParse])
  | arr xs => exact absurd h (by simp [momentParse])

/-- Claim C8 — coercion idempotence: with the call-site options of the
pipeline (default `null`, unquoted, any iso-date mode), whenever a first
coercion succeeds with value `v`, coercing `v` again at the same type
succeeds and returns `v` itself (and never warns). -/
theorem C8_coercion_idempotent (ty : String) (val : JValue) (iso : Bool)
    (v : JValue) (w : Bool)
    (h : coerce ty val .null false iso = .ok ⟨v, w⟩) :
    coerce ty v .null false iso = .ok ⟨v, false⟩ := by
  unfold coerce at h ⊢
  by_cases hF : (ty == "Float") = true
  · rw [if_pos hF] at h ⊢
    cases val with
    | str s =>
      dsimp only at h
      cases hp : jsParseNumber s with
      | some q =>
        rw [hp] at h
        simp only [Except.ok.injEq, CoerceResult.mk.injEq] at h
        obtain ⟨hv, -⟩ := h
        subst hv
        rfl
      | none =>
        rw [hp] at h
        simp only [Except.ok.injEq, CoerceResult.mk.injEq] at h
        obtain ⟨hv, -⟩ := h
        subst hv
        rfl
    | num q =>
      simp only [Except.ok.injEq, CoerceResult.mk.injEq] at h
      obtain ⟨hv, -⟩ := h
      subst hv
      rfl
    | null =>
      simp only [Except.ok.injEq, CoerceResult.mk.injEq] at h
      obtain ⟨hv, -⟩ := h
      subst hv
      rfl
    | bool b =>
      simp only [Except.ok.injEq, CoerceResult.mk.injEq] at h
      obtain ⟨hv, -⟩ := h
      subst hv
      rfl
    | arr xs =>
      simp only [Except.ok.injEq, CoerceResult.mk.injEq] at h
      obtain ⟨hv, -⟩ := h
      subst hv
      rfl
  · rw [if_neg hF] at h ⊢
    by_cases hI : (ty == "Int") = true
    · rw [if_pos hI] at h ⊢
      cases val with
      | str s =>
        dsimp only at h
        cases hp : jsParseNumber s with
        | some q =>
          rw [hp] at h
          simp only [Except.ok.injEq, CoerceResult.mk.injEq] at h
          obtain ⟨hv, -⟩ := h
          subst hv
          rfl
        | none =>
          rw [hp] at h
          simp only [Except.ok.injEq, CoerceResult.mk.injEq] at h
          obtain ⟨hv, -⟩ := h
          subst hv
          rfl
      | num q =>
        simp only [Except.ok.injEq, CoerceResult.mk.injEq] at h
        obtain ⟨hv, -⟩ := h
        subst hv
        rfl
      | null =>
        simp only [Except.ok.injEq, CoerceResult.mk.injEq] at h
        obtain ⟨hv, -⟩ := h
        subst hv
        rfl
      | bool b =>
        simp only [Except.ok.injEq, CoerceResult.mk.injEq] at h
        obtain ⟨hv, -⟩ := h
        subst hv
        rfl
      | arr xs =>
        simp only [Except.ok.injEq, CoerceResult.mk.injEq] at h
        obtain ⟨hv, -⟩ := h
        subst hv
        rfl
    · rw [if_neg hI] at h ⊢
      by_cases hB : (ty == "Boolean") = true
      · rw [if_pos hB] at h ⊢
        cases val with
        | str s =>
          dsimp only at h
          by_cases ht : (jsToLower s == "true") = true
          · rw [if_pos ht] at h
            simp only [Except.ok.injEq, CoerceResult.mk.injEq] at h
            obtain ⟨hv, -⟩ := h
            subst hv
            rfl
          · rw [if_neg ht] at h
            by_cases hf2 : (jsToLower s == "false") = true
            · rw [if_pos hf2] at h
              simp only [Except.ok.injEq, CoerceResult.mk.injEq] at h
              obtain ⟨hv, -⟩ := h
              subst hv
              rfl
            · rw [if_neg hf2] at h
              simp only [Except.ok.injEq, CoerceResult.mk.injEq] at h
              obtain ⟨hv, -⟩ := h
              subst hv
              rfl
        | bool b =>
          simp only [Except.ok.injEq, CoerceResult.mk.injEq] at h
          obtain ⟨hv, -⟩ := h
          subst hv
          rfl
        | null =>
          simp only [Except.ok.injEq, CoerceResult.mk.injEq] at h
          obtain ⟨hv, -⟩ := h
          subst hv
          rfl
        | num q =>
          simp only [Except.ok.injEq, CoerceResult.mk.injEq] at h
          obtain ⟨hv, -⟩ := h
          subst hv
          rfl
        | arr xs =>
          simp only [Except.ok.injEq, CoerceResult.mk.injEq] at h
          obtain ⟨hv, -⟩ := h
          subst hv
          rfl
      · rw [if_neg hB] at h ⊢
        by_cases hD : (ty == "Date" || ty == "DateTime" || ty == "Time") = true
        · rw [if_pos hD] at h ⊢
          by_cases hfal : jsFalsy val = true
          · rw [if_pos hfal] at h
            simp only [Except.ok.injEq, CoerceResult.mk.injEq] at h
            obtain ⟨hv, -⟩ := h
            subst hv
            rfl
          · rw [if_neg hfal] at h
            by_cases hT : (ty == "Time") = true
            · rw [if_pos hT] at h
              by_cases hpt : parseTimeValid val = true
              · rw [if_pos hpt] at h
                simp only [Bool.false_eq_true, if_false] at h
                simp only [Except.ok.injEq, CoerceResult.mk.injEq] at h
                obtain ⟨hv, -⟩ := h
                subst hv
                rw [if_neg hfal, if_pos hT, if_pos hpt]
                simp only [Bool.false_eq_true, if_false]
              · rw [if_neg hpt] at h
                exact Except.noConfusion h
            · rw [if_neg hT] at h
              cases hm : momentParse val with
              | none =>
                rw [hm] at h
                exact Except.noConfusion h
              | some dt =>
                rw [hm] at h
                dsimp only at h
                simp only [Bool.false_eq_true, if_false] at h
                have hvd : validDTFull dt := momentParse_valid_any val dt hm
                by_cases hc : ((ty == "Date") && iso || (ty == "DateTime")) = true
                · rw [if_pos hc] at h
                  simp only [Except.ok.injEq, CoerceResult.mk.injEq] at h
                  obtain ⟨hv, -⟩ := h
                  subst hv
                  have hne : ¬(jsFalsy (JValue.str (toIsoString dt)) = true) := by
                    simp [jsFalsy]
                    exact toIsoString_ne_empty dt
                  rw [if_neg hne, if_neg hT, momentParse_iso dt hvd]
                  dsimp only
                  simp only [Bool.false_eq_true, if_false]
                  rw [if_pos hc]
                · rw [if_neg hc] at h
                  simp only [Except.ok.injEq, CoerceResult.mk.injEq] at h
                  obtain ⟨hv, -⟩ := h
                  subst hv
                  have hne : ¬(jsFalsy (JValue.str (toYmdString dt)) = true) := by
                    simp [jsFalsy]
                    exact toYmdString_ne_empty dt
                  rw [if_neg hne, if_neg hT, momentParse_ymd dt hvd]
                  dsimp only
                  simp only [Bool.false_eq_true, if_false]
                  rw [if_neg hc]
                  rfl
        · rw [if_neg hD] at h ⊢
          simp only [Bool.not_false, if_true] at h ⊢
          cases val with
          | str s =>
            simp only [Except.ok.injEq, CoerceResult.mk.injEq] at h
            obtain ⟨hv, -⟩ := h
            subst hv
            rfl
          | null =>
            simp only [Except.ok.injEq, CoerceResult.mk.injEq] at h
            obtain ⟨hv, -⟩ := h
            subst hv
            rfl
          | bool b =>
            simp only [Except.ok.injEq, CoerceResult.mk.injEq] at h
            obtain ⟨hv, -⟩ := h
            subst hv
            rfl
          | num q =>
            simp only [Except.ok.injEq, CoerceResult.mk.injEq] at h
            obtain ⟨hv, -⟩ := h
            subst hv
            rfl
          | arr xs =>
            simp only [Except.ok.injEq, CoerceResult.mk.injEq] at h
            obtain ⟨hv, -⟩ := h
            subst hv
            rfl

/-- Witness for C8 at concrete inputs: recoercing the already-coerced
Boolean and Date values returns them unchanged. -/
theorem C8_coercion_idempotent_witness :
    coerce "Boolean" (.bool true) .null false false = .ok ⟨.bool true, false⟩ ∧
    coerce "Date" (.str "2020-01-05T00:00:00.000Z") .null false true =
      .ok ⟨.str "2020-01-05T00:00:00.000Z", false⟩ :=
  ⟨C8_coercion_idempotent "Boolean" (.str "TRUE") false (.bool true) false rfl,
   C8_coercion_idempotent "Date" (.str "2020-01-05") true
     (.str "2020-01-05T00:00:00.000Z") false rfl⟩

/-- The letter alphabet decodes its own digits. -/
theorem decDigitVal_decDigitChar (d : Nat) (h : d < 10) :
    decDigitVal (decDigitChar d) = d := by
  interval_cases d <;> rfl

/-- Appending one digit multiplies the decoded value by ten and adds it. -/
theorem decVal_append (xs : List Char) (c : Char) :
    decVal (xs ++ [c]) = decVal xs * 10 + decDigitVal c := by
  simp [decVal, List.foldl_append]

/-- The digit expansion decodes back to the encoded number whenever the fuel
covers it. -/
theorem decVal_decStrAux (fuel : Nat) :
    ∀ n, n < 10 ^ fuel → decVal (decStrAux fuel n) = n := by
  induction fuel with
  | zero =>
    intro n hn
    have : n = 0 := by simpa using hn
    subst this
    rfl
  | succ fuel ih =>
    intro n hn
    unfold decStrAux
    by_cases hn10 : n < 10
    · rw [if_pos hn10]
      show 0 * 10 + decDigitVal (decDigitChar n) = n
      rw [decDigitVal_decDigitChar n hn10]
      omega
    · rw [if_neg hn10]
      rw [decVal_append]
      have hdiv : n / 10 < 10 ^ fuel := by
        rw [Nat.div_lt_iff_lt_mul (by omega)]
        calc n < 10 ^ (fuel + 1) := hn
        _ = 10 ^ fuel * 10 := by rw [pow_succ]
      rw [ih (n / 10) hdiv, decDigitVal_decDigitChar (n % 10) (Nat.mod_lt n (by omega))]
      omega

/-- Any positive fuel produces a non-empty expansion. -/
theorem decStrAux_ne_nil (fuel n : Nat) : decStrAux (fuel + 1) n ≠ [] := by
  unfold decStrAux
  split
  · simp
  · simp

/-- The letter encoding of distinct numbers is distinct. -/
theorem decStr_inj (a b : Nat) (h : decStr a = decStr b) : a = b := by
  unfold decStr at h
  have hl : decStrAux (a + 1) a = decStrAux (b + 1) b := congrArg String.data h
  have ha : a < 10 ^ (a + 1) :=
    lt_of_lt_of_le (Nat.lt_pow_self (by omega) a)
      (Nat.pow_le_pow_right (by omega) (Nat.le_succ a))
  have hb : b < 10 ^ (b + 1) :=
    lt_of_lt_of_le (Nat.lt_pow_self (by omega) b)
      (Nat.pow_le_pow_right (by omega) (Nat.le_succ b))
  have := decVal_decStrAux (a + 1) a ha
  rw [hl, decVal_decStrAux (b + 1) b hb] at this
  omega

/-- The letter encoding is never the empty string. -/
theorem decStr_ne_empty (n : Nat) : decStr n ≠ "" := by
  unfold decStr
  intro h
  exact decStrAux_ne_nil n n (congrArg String.data h)

/-- Length of the expansion is bounded by the number of available digits. -/
theorem decStrAux_length_le (fuel : Nat) :
    ∀ n k, 1 ≤ k → n < 10 ^ k → (decStrAux fuel n).length ≤ k := by
  induction fuel with
  | zero =>
    intro n k _ _
    simp [decStrAux]
  | succ fuel ih =>
    intro n k hk hn
    unfold decStrAux
    by_cases hn10 : n < 10
    · rw [if_pos hn10]
      simpa using hk
    · rw [if_neg hn10]
      obtain ⟨j, rfl⟩ : ∃ j, k = j + 1 := ⟨k - 1, by omega⟩
      have hj : 1 ≤ j := by
        by_contra hj0
        have : j = 0 := by omega
        subst this
        simp [pow_one] at hn
        omega
      have hdiv : n / 10 < 10 ^ j := by
        rw [Nat.div_lt_iff_lt_mul (by omega)]
        calc n < 10 ^ (j + 1) := hn
        _ = 10 ^ j * 10 := by rw [pow_succ]
      have := ih (n / 10) j hj hdiv
      simp [List.length_append]
      omega

/-- Concrete bound used for the 25,000-record scenario: ids stay within the
25-character normalization ceiling. -/
theorem decStr_length_le (n : Nat) (h : n < 100000) : (decStr n).length ≤ 5 := by
  show (decStrAux (n + 1) n).length ≤ 5
  exact decStrAux_length_le (n + 1) n 5 (by omega) (by norm_num; omega)

/-- Short ids pass through `mkNdfId` unchanged. -/
theorem mkNdfId_decStr (n : Nat) (h : n < 100000) : mkNdfId (decStr n) = decStr n := by
  unfold mkNdfId
  rw [if_neg]
  have := decStr_length_le n h
  omega

/-- Flushing never changes the observable conversion outcome: it only moves
buffered entries into written files. -/
theorem flushState_obs (st : ConvState) : convObs (flushState st) = convObs st := by
  unfold flushState
  split
  · rfl
  · dsimp only
    split <;> split <;> split <;> simp [convObs, filesJoin]

/-- After a flush all three buffers are empty. -/
theorem flushState_clears (st : ConvState) :
    (flushState st).nodes = [] ∧ (flushState st).lists = [] ∧
      (flushState st).relations = [] := by
  unfold flushState
  split
  · rename_i h
    simp only [Bool.and_eq_true, List.isEmpty_iff] at h
    exact ⟨h.1.1, h.1.2, h.2⟩
  · dsimp only
    split <;> split <;> split <;> refine ⟨?_, ?_, ?_⟩ <;> simp_all

/-- A conditional flush is observably the identity. -/
theorem convObs_ite_flush (c : Prop) [Decidable c] (st : ConvState) :
    convObs (if c then flushState st else st) = convObs st := by
  split
  · exact flushState_obs st
  · rfl

/-- One step of the entity loop preserves equality of observables, for any
two flush thresholds: the step reads the state only through its observable
part, and the optional flush is observably the identity. -/
theorem processEntity_obs (sch : Schema) (ty : SType) (tn : String) (fe1 fe2 : Nat)
    (st1 st2 : ConvState) (e : Record) (h : convObs st1 = convObs st2) :
    (processEntity sch ty tn fe1 st1 e).map convObs
      = (processEntity sch ty tn fe2 st2 e).map convObs := by
  simp only [convObs, Prod.mk.injEq] at h
  obtain ⟨⟨hn, hl, hr⟩, hd, hcnt, herr, hmsg, hs⟩ := h
  unfold processEntity
  cases hg : jsGet e "id" with
  | none =>
    dsimp only
    simp only [Except.map, Except.ok.injEq]
    simp only [convObs, Prod.mk.injEq]
    exact ⟨⟨hn, hl, hr⟩, hd, hcnt, by rw [herr], by rw [hmsg], hs⟩
  | some rawId =>
    dsimp only
    by_cases hfal : jsFalsy rawId = true
    · rw [if_pos hfal, if_pos hfal]
      simp only [Except.map, Except.ok.injEq]
      simp only [convObs, Prod.mk.injEq]
      exact ⟨⟨hn, hl, hr⟩, hd, hcnt, by rw [herr], by rw [hmsg], hs⟩
    · rw [if_neg hfal, if_neg hfal]
      rw [hd]
      cases hf : st2.dedupe.find? (fun kv => kv.1 == jsToStr (mkNdfIdJ rawId)) with
      | some kv =>
        simp only [Except.map, Except.ok.injEq]
        simp only [convObs, Prod.mk.injEq]
        exact ⟨⟨hn, hl, hr⟩, trivial, hcnt, by rw [herr], by rw [hmsg], hs⟩
      | none =>
        cases hc : classifyEntity sch ty e with
        | error msg => simp [Except.map]
        | ok acc =>
          simp only [Except.map, Except.ok.injEq]
          rw [convObs_ite_flush, convObs_ite_flush]
          by_cases hle : acc.listValues.isEmpty = true
          · rw [if_pos hle, if_pos hle]
            simp only [convObs, Prod.mk.injEq]
            refine ⟨⟨?_, ?_, ?_⟩, trivial, by rw [hcnt], herr, hmsg, hs⟩
            · rw [← List.append_assoc, ← List.append_assoc, hn]
            · exact hl
            · rw [← List.append_assoc, ← List.append_assoc, hr]
          · rw [if_neg hle, if_neg hle]
            simp only [convObs, Prod.mk.injEq]
            refine ⟨⟨?_, ?_, ?_⟩, trivial, by rw [hcnt], herr, hmsg, hs⟩
            · rw [← List.append_assoc, ← List.append_assoc, hn]
            · rw [← List.append_assoc, ← List.append_assoc, hl]
            · rw [← List.append_assoc, ← List.append_assoc, hr]

/-- The whole entity fold preserves equality of observables across flush
thresholds. -/
theorem foldlM_obs (sch : Schema) (ty : SType) (tn : String) (fe1 fe2 : Nat)
    (data : List Record) :
    ∀ (st1 st2 : ConvState), convObs st1 = convObs st2 →
    (data.foldlM (processEntity sch ty tn fe1) st1).map convObs
      = (data.foldlM (processEntity sch ty tn fe2) st2).map convObs := by
  induction data with
  | nil =>
    intro st1 st2 h
    simp [List.foldlM_nil, Except.map, pure, Except.pure, h]
  | cons e rest ih =>
    intro st1 st2 h
    have hstep := processEntity_obs sch ty tn fe1 fe2 st1 st2 e h
    cases h1 : processEntity sch ty tn fe1 st1 e with
    | error m1 =>
      cases h2 : processEntity sch ty tn fe2 st2 e with
      | error m2 =>
        rw [h1, h2] at hstep
        simp only [Except.map, Except.error.injEq] at hstep
        subst hstep
        simp [List.foldlM_cons, h1, h2, bind, Except.bind, Except.map]
      | ok s2 =>
        rw [h1, h2] at hstep
        simp [Except.map] at hstep
    | ok s1 =>
      cases h2 : processEntity sch ty tn fe2 st2 e with
      | error m2 =>
        rw [h1, h2] at hstep
        simp [Except.map] at hstep
      | ok s2 =>
        rw [h1, h2] at hstep
        simp only [Except.map, Except.ok.injEq] at hstep
        simp only [List.foldlM_cons, h1, h2, bind, Except.bind]
        exact ih s1 s2 hstep

/-- A full conversion run's observables do not depend on the flush
threshold. -/
theorem convertRun_obs (sch : Schema) (tn : String) (fe : Nat) (data : List Record) :
    (convertRun sch tn fe data).map convObs = (convertRun sch tn 0 data).map convObs := by
  unfold convertRun
  cases hT : getType sch tn with
  | none => rfl
  | some baseType =>
    dsimp only
    cases hF : getField sch baseType "id" with
    | none => rfl
    | some fi =>
      dsimp only
      have hfold := foldlM_obs sch baseType tn fe 0 data initConvState initConvState rfl
      cases h1 : data.foldlM (processEntity sch baseType tn fe) initConvState with
      | error m1 =>
        cases h2 : data.foldlM (processEntity sch baseType tn 0) initConvState with
        | error m2 =>
          rw [h1, h2] at hfold
          simp only [Except.map, Except.error.injEq] at hfold
          subst hfold
          simp [h1, h2, bind, Except.bind, Except.map]
        | ok s2 =>
          rw [h1, h2] at hfold
          simp [Except.map] at hfold
      | ok s1 =>
        cases h2 : data.foldlM (processEntity sch baseType tn 0) initConvState with
        | error m2 =>
          rw [h1, h2] at hfold
          simp [Except.map] at hfold
        | ok s2 =>
          rw [h1, h2] at hfold
          simp only [Except.map, Except.ok.injEq] at hfold
          simp only [h1, h2, bind, Except.bind, Except.map, Except.ok.injEq]
          have hobs : convObs (flushState s1) = convObs (flushState s2) := by
            rw [flushState_obs, flushState_obs]
            exact hfold
          simp only [convObs, Prod.mk.injEq] at hobs ⊢
          obtain ⟨⟨hn, hl, hr⟩, hd, hc, he, hm, hs⟩ := hobs
          exact ⟨⟨hn, hl, hr⟩, hd, hc, he, hm, by rw [he]⟩

/-- Flushing a state whose list and relation buffers are empty writes exactly
one node file for the next generation. -/
theorem flushState_nodesOnly (st : ConvState) (h1 : st.nodes ≠ []) (h2 : st.lists = [])
    (h3 : st.relations = []) :
    flushState st = { st with
      ndfGenCnt := st.ndfGenCnt + 1,
      nodes := [],
      writtenNodes := st.writtenNodes ++ [(padGen (st.ndfGenCnt + 1), st.nodes)],
      ndfFileCnt := st.ndfFileCnt + 1 } := by
  unfold flushState
  split
  · rename_i hg
    simp only [Bool.and_eq_true, List.isEmpty_iff] at hg
    exact absurd hg.1.1 h1
  · dsimp only
    split
    · rename_i hg
      rw [List.isEmpty_iff] at hg
      exact absurd hg h1
    · dsimp only
      split
      · dsimp only
        split
        · rfl
        · rename_i hg
          rw [h3] at hg
          exact absurd rfl hg
      · rename_i hg
        rw [h2] at hg
        exact absurd rfl hg

/-- Unfolding one step of the sample-record sequence. -/
theorem sampleRecords_succ (m : Nat) :
    sampleRecords (m + 1) = sampleRecords m ++ [[("id", JValue.str (decStr m))]] := by
  simp [sampleRecords, List.range_succ]

/-- Evaluation of the entity step on an id-only record with a fresh short id:
the id passes normalization unchanged, classification is empty, and the state
gains one dedupe entry and one buffered node before the optional flush. -/
theorem processEntity_onlyId (fe : Nat) (st : ConvState) (n : Nat) (hn : n < 100000)
    (hfresh : st.dedupe.find? (fun kv => kv.1 == decStr n) = none) :
    processEntity schemaIdOnly ⟨"T", [("id", GType.named "ID")]⟩ "T" fe st
        [("id", JValue.str (decStr n))]
      = .ok (if fe ≠ 0 ∧ (st.entityCnt + 1) % fe = 0 then
          flushState { st with
            nodes := st.nodes ++ [⟨"T", JValue.str (decStr n), []⟩],
            relations := st.relations ++ [],
            dedupe := st.dedupe ++ [(decStr n, JValue.str (decStr n))],
            entityCnt := st.entityCnt + 1 }
        else { st with
            nodes := st.nodes ++ [⟨"T", JValue.str (decStr n), []⟩],
            relations := st.relations ++ [],
            dedupe := st.dedupe ++ [(decStr n, JValue.str (decStr n))],
            entityCnt := st.entityCnt + 1 }) := by
  unfold processEntity
  have hget : jsGet [("id", JValue.str (decStr n))] "id" = some (JValue.str (decStr n)) := rfl
  rw [hget]
  dsimp only
  have hfal : ¬(jsFalsy (JValue.str (decStr n)) = true) := by
    simp [jsFalsy]
    exact decStr_ne_empty n
  rw [if_neg hfal]
  simp only [mkNdfIdJ, mkNdfId_decStr n hn, jsToStr]
  rw [hfresh]
  have hcl : classifyEntity schemaIdOnly ⟨"T", [("id", GType.named "ID")]⟩
      [("id", JValue.str (decStr n))] = .ok ⟨[], [], []⟩ := rfl
  rw [hcl]
  simp only [Except.map]
  simp

/-- Invariant of the entity fold over id-only sample records, for the two
flush thresholds of interest (the hardcoded 10,000 and the disabled 0):
buffers other than nodes stay empty, no errors occur, the dedupe table lists
the processed ids in order, and the node files written so far are exactly the
completed generations, named `00001`, `00002`, ... in order. -/
theorem onlyId_fold_inv (fe : Nat) (hfe : fe = 10000 ∨ fe = 0) :
    ∀ m, m ≤ 25000 →
    ∃ st : ConvState,
      (sampleRecords m).foldlM
          (processEntity schemaIdOnly ⟨"T", [("id", GType.named "ID")]⟩ "T" fe)
          initConvState = .ok st ∧
      st.lists = [] ∧ st.relations = [] ∧
      st.writtenLists = [] ∧ st.writtenRels = [] ∧
      st.errorCnt = 0 ∧ st.entityCnt = m ∧
      st.dedupe = (List.range m).map (fun i => (decStr i, JValue.str (decStr i))) ∧
      st.ndfGenCnt = m / fe ∧
      st.nodes.length = m % fe ∧
      st.writtenNodes.map Prod.fst = (List.range (m / fe)).map (fun g => padGen (g + 1)) := by
  intro m
  induction m with
  | zero =>
    intro _
    exact ⟨initConvState, rfl, rfl, rfl, rfl, rfl, rfl, rfl, by simp [initConvState],
      by simp [initConvState], by simp [initConvState], by simp [initConvState]⟩
  | succ m ih =>
    intro hm
    obtain ⟨st, hfold, hL, hR, hWL, hWR, hE, hC, hD, hG, hN, hW⟩ := ih (by omega)
    have hfresh : st.dedupe.find? (fun kv => kv.1 == decStr m) = none := by
      rw [hD]
      apply List.find?_eq_none.mpr
      intro x hx
      simp only [List.mem_map, List.mem_range] at hx
      obtain ⟨i, hi, rfl⟩ := hx
      simp only [beq_iff_eq]
      intro heq
      exact absurd (decStr_inj i m heq) (by omega)
    have hstep := processEntity_onlyId fe st m (by omega) hfresh
    rw [sampleRecords_succ, List.foldlM_append, hfold]
    simp only [bind, Except.bind, List.foldlM_cons, List.foldlM_nil, hstep]
    rw [hC] at hstep ⊢
    by_cases hcond : fe ≠ 0 ∧ (m + 1) % fe = 0
    · rw [if_pos hcond]
      rw [flushState_nodesOnly _ (by simp) (by dsimp only; exact hL)
        (by dsimp only; rw [hR]; rfl)]
      refine ⟨_, rfl, ?_, ?_, ?_, ?_, ?_, ?_, ?_, ?_, ?_, ?_⟩
      · exact hL
      · dsimp only
        rw [hR]
        rfl
      · exact hWL
      · exact hWR
      · exact hE
      · rfl
      · dsimp only
        rw [hD, List.range_succ]
        simp
      · dsimp only
        rw [hG]
        rcases hfe with rfl | rfl
        · omega
        · exact absurd rfl hcond.1
      · dsimp only
        simp [hcond.2]
      · dsimp only
        have hdiv : (m + 1) / fe = m / fe + 1 := by
          rcases hfe with rfl | rfl
          · omega
          · exact absurd rfl hcond.1
        rw [hdiv, List.range_succ]
        simp [hW, hG]
    · rw [if_neg hcond]
      have hdiv : (m + 1) / fe = m / fe := by
        rcases hfe with rfl | rfl
        · have : ¬((m + 1) % 10000 = 0) := by
            intro hz
            exact hcond ⟨by omega, hz⟩
          omega
        · simp
      have hmod : (m + 1) % fe = m % fe + 1 := by
        rcases hfe with rfl | rfl
        · have : ¬((m + 1) % 10000 = 0) := by
            intro hz
            exact hcond ⟨by omega, hz⟩
          omega
        · simp [Nat.mod_zero]
      refine ⟨_, rfl, ?_, ?_, ?_, ?_, ?_, ?_, ?_, ?_, ?_, ?_⟩
      · exact hL
      · dsimp only
        rw [hR]
        rfl
      · exact hWL
      · exact hWR
      · exact hE
      · rfl
      · dsimp only
        rw [hD, List.range_succ]
        simp
      · dsimp only
        rw [hG, hdiv]
      · dsimp only
        simp only [List.length_append, List.length_cons, List.length_nil, hN]
        omega
      · dsimp only
        rw [hW, hdiv]

/-- Claim C2 — flush equivalence.  First part: for any schema, type name,
flush threshold and input, the conversion run's observables (total emitted
node/list/relation entries, dedupe table, counters, errors, success flag)
equal those of the run that flushes only at end-of-file.  Second part: on
25,000 valid id-only records, the run with the hardcoded threshold 10,000
succeeds with exactly three node-file generations named `00001`, `00002`,
`00003`, no list or relation files, and the concatenation of its node files
equals that of the single-generation (threshold-disabled) run. -/
theorem C2_flush_equivalence :
    (∀ (sch : Schema) (tn : String) (fe : Nat) (data : List Record),
        (convertRun sch tn fe data).map convObs = (convertRun sch tn 0 data).map convObs) ∧
    ∃ st10 st0 : ConvState,
      convertRun schemaIdOnly "T" 10000 (sampleRecords 25000) = .ok st10 ∧
      convertRun schemaIdOnly "T" 0 (sampleRecords 25000) = .ok st0 ∧
      st10.writtenNodes.map Prod.fst = ["00001", "00002", "00003"] ∧
      st0.writtenNodes.map Prod.fst = ["00001"] ∧
      filesJoin st10.writtenNodes = filesJoin st0.writtenNodes ∧
      st10.writtenLists = [] ∧ st10.writtenRels = [] ∧
      st10.errorCnt = 0 ∧ st10.succeedInc = true := by
  refine ⟨fun sch tn fe data => convertRun_obs sch tn fe data, ?_⟩
  obtain ⟨s1, hf1, hL1, hR1, hWL1, hWR1, hE1, hC1, hD1, hG1, hN1, hW1⟩ :=
    onlyId_fold_inv 10000 (Or.inl rfl) 25000 (by omega)
  obtain ⟨s0, hf0, hL0, hR0, hWL0, hWR0, hE0, hC0, hD0, hG0, hN0, hW0⟩ :=
    onlyId_fold_inv 0 (Or.inr rfl) 25000 (by omega)
  have hn1 : s1.nodes ≠ [] := by
    intro h
    rw [h] at hN1
    simp at hN1
  have hn0 : s0.nodes ≠ [] := by
    intro h
    rw [h] at hN0
    simp at hN0
  have hfl1 := flushState_nodesOnly s1 hn1 hL1 hR1
  have hfl0 := flushState_nodesOnly s0 hn0 hL0 hR0
  have hrun1 : convertRun schemaIdOnly "T" 10000 (sampleRecords 25000)
      = .ok { flushState s1 with succeedInc := (flushState s1).errorCnt == 0 } := by
    unfold convertRun
    rw [show getType schemaIdOnly "T" = some ⟨"T", [("id", GType.named "ID")]⟩ from rfl]
    dsimp only
    rw [show getField schemaIdOnly ⟨"T", [("id", GType.named "ID")]⟩ "id"
        = some ⟨false, false, false, "ID"⟩ from rfl]
    dsimp only
    rw [hf1]
    rfl
  have hrun0 : convertRun schemaIdOnly "T" 0 (sampleRecords 25000)
      = .ok { flushState s0 with succeedInc := (flushState s0).errorCnt == 0 } := by
    unfold convertRun
    rw [show getType schemaIdOnly "T" = some ⟨"T", [("id", GType.named "ID")]⟩ from rfl]
    dsimp only
    rw [show getField schemaIdOnly ⟨"T", [("id", GType.named "ID")]⟩ "id"
        = some ⟨false, false, false, "ID"⟩ from rfl]
    dsimp only
    rw [hf0]
    rfl
  refine ⟨_, _, hrun1, hrun0, ?_, ?_, ?_, ?_, ?_, ?_, ?_⟩
  · show (flushState s1).writtenNodes.map Prod.fst = _
    rw [hfl1]
    dsimp only
    rw [List.map_append, hW1, hG1]
    rfl
  · show (flushState s0).writtenNodes.map Prod.fst = _
    rw [hfl0]
    dsimp only
    rw [List.map_append, hW0, hG0]
    rfl
  · have hobs := convertRun_obs schemaIdOnly "T" 10000 (sampleRecords 25000)
    rw [hrun1, hrun0] at hobs
    simp only [Except.map, Except.ok.injEq] at hobs
    simp only [convObs, Prod.mk.injEq] at hobs
    obtain ⟨⟨hnodes, -, -⟩, -⟩ := hobs
    have hz1 : ({ flushState s1 with
        succeedInc := (flushState s1).errorCnt == 0 } : ConvState).nodes = [] := by
      show (flushState s1).nodes = []
      rw [hfl1]
    have hz0 : ({ flushState s0 with
        succeedInc := (flushState s0).errorCnt == 0 } : ConvState).nodes = [] := by
      show (flushState s0).nodes = []
      rw [hfl0]
    rw [hz1, hz0, List.append_nil, List.append_nil] at hnodes
    exact hnodes
  · show (flushState s1).writtenLists = []
    rw [hfl1]
    exact hWL1
  · show (flushState s1).writtenRels = []
    rw [hfl1]
    exact hWR1
  · show (flushState s1).errorCnt = 0
    rw [hfl1]
    exact hE1
  · show ((flushState s1).errorCnt == 0) = true
    rw [hfl1]
    dsimp only
    rw [hE1]
    rfl
